import Mathlib

/-!
Verification development for the tg-archive-keeper repository.

The store (SQLite, `app/database.py`) is modelled as explicit state: each
mutating operation is a pure function from the store (plus a `now : Nat`
timestamp standing for `datetime('now')`) to the new store.  The partial
unique index `idx_jobs_one_active_per_file` is modelled exactly where SQLite
enforces it: `insert_job` refuses to create a second active job for a file
(the caught `IntegrityError`), and `update_job_retry` fails (uncaught
`IntegrityError`, transaction rolled back, state unchanged) when re-activating
a job would collide with another active job for the same file.

The worker (`app/worker.py`) is modelled as a pure function over a `World`
(store + filesystem + audit notes + failure records), with the two-stage
download chain abstracted as an oracle argument, and the content locator
(`app/file_manager.py`) over `List Char` so that the sanitisation steps can
be reasoned about character by character.
-/

namespace TgArchive

/-- Job status column: QUEUED|RUNNING|DONE|RETRY|FAILED (`jobs.status`). -/
inductive JobStatus where
  | queued
  | running
  | done
  | retry
  | failed
deriving DecidableEq, Repr

/-- A status counted by the partial unique index
`idx_jobs_one_active_per_file` (WHERE status IN ('QUEUED','RUNNING','RETRY')). -/
def JobStatus.isActive : JobStatus → Bool
  | .queued => true
  | .running => true
  | .retry => true
  | .done => false
  | .failed => false

/-- File status column: NEW|DOWNLOADED|FAILED (`files.status`). -/
inductive FileStatus where
  | new
  | downloaded
  | failed
deriving DecidableEq, Repr

/-- One row of the `jobs` table. -/
structure Job where
  id : Nat
  fileId : Nat
  messageId : Nat
  status : JobStatus
  attempts : Nat
  lastError : Option String
  availableAt : Nat
  lockedBy : Option String
  lockedAt : Option Nat
  createdAt : Nat
deriving DecidableEq, Repr

/-- A filesystem path as the list of its components, as produced by chaining
pathlib's `/` operator in `get_archive_path`. -/
abbrev FPath := List (List Char)

/-- One row of the `files` table. -/
structure FileRec where
  id : Nat
  fileUniqueId : String
  lastSeenFileId : Option String
  fileSize : Option Nat
  mimeType : Option String
  originalName : Option String
  localPath : Option FPath
  localSize : Option Nat
  sha256 : Option String
  status : FileStatus
deriving DecidableEq, Repr

/-- One row of the `messages` table (the columns the worker reads). -/
structure MessageRec where
  id : Nat
  tgChatId : Int
  tgMessageId : Nat
  receivedAt : String
  sourceId : Option Nat
deriving DecidableEq, Repr

/-- One row of the `sources` table. -/
structure SourceRec where
  id : Nat
  sourceType : String
  sourceChatId : Int
  title : Option String
  username : Option String
deriving DecidableEq, Repr

/-- A row of the `message_files` link table. -/
structure MessageFileRec where
  messageId : Nat
  fileId : Nat
  tgFileId : String
  tgFileUniqueId : String
  kind : String
  caption : Option String
deriving DecidableEq, Repr

/-- The durable store: tables plus AUTOINCREMENT counters. -/
structure Store where
  files : List FileRec
  messages : List MessageRec
  sources : List SourceRec
  messageFiles : List MessageFileRec
  jobs : List Job
  nextJobId : Nat
  nextFileId : Nat
deriving DecidableEq, Repr

/-- The freshly initialised store (`init_db` creates empty tables). -/
def Store.empty : Store :=
  { files := [], messages := [], sources := [], messageFiles := [], jobs := [],
    nextJobId := 1, nextFileId := 1 }

/-- SELECT * FROM files WHERE id=? (`get_file_by_id`). -/
def get_file_by_id (s : Store) (fileId : Nat) : Option FileRec :=
  s.files.find? fun f => f.id == fileId

/-- SELECT * FROM messages WHERE id=? (`get_message_by_id`). -/
def get_message_by_id (s : Store) (messageId : Nat) : Option MessageRec :=
  s.messages.find? fun m => m.id == messageId

/-- SELECT * FROM sources WHERE id=? (`get_source_by_id`). -/
def get_source_by_id (s : Store) (sourceId : Nat) : Option SourceRec :=
  s.sources.find? fun src => src.id == sourceId

/-- SQL COALESCE of two nullable values: the first when non-null, else the
second.  `upsert_file` uses `COALESCE(excluded.col, col)`. -/
def coalesce {α : Type} : Option α → Option α → Option α
  | some v, _ => some v
  | none, b => b

/-- INSERT INTO files ... ON CONFLICT(file_unique_id) DO UPDATE SET
last_seen_file_id=excluded.last_seen_file_id,
file_size=COALESCE(excluded.file_size, file_size), ... (`upsert_file`). -/
def upsert_file (s : Store) (fileUniqueId lastSeenFileId : String)
    (fileSize : Option Nat) (mimeType originalName : Option String) :
    Nat × Store :=
  match s.files.find? (fun f => f.fileUniqueId == fileUniqueId) with
  | some f =>
      let f' : FileRec :=
        { f with
          lastSeenFileId := some lastSeenFileId
          fileSize := coalesce fileSize f.fileSize
          mimeType := coalesce mimeType f.mimeType
          originalName := coalesce originalName f.originalName }
      (f.id, { s with files := s.files.map fun g => if g.id == f.id then f' else g })
  | none =>
      let f : FileRec :=
        { id := s.nextFileId, fileUniqueId := fileUniqueId,
          lastSeenFileId := some lastSeenFileId, fileSize := fileSize,
          mimeType := mimeType, originalName := originalName,
          localPath := none, localSize := none, sha256 := none, status := .new }
      (s.nextFileId, { s with files := s.files ++ [f], nextFileId := s.nextFileId + 1 })

/-- INSERT INTO message_files ... (`insert_message_file`). -/
def insert_message_file (s : Store) (messageId fileId : Nat)
    (tgFileId tgFileUniqueId kind : String) (caption : Option String) : Store :=
  { s with messageFiles := s.messageFiles ++
      [{ messageId := messageId, fileId := fileId, tgFileId := tgFileId,
         tgFileUniqueId := tgFileUniqueId, kind := kind, caption := caption }] }

/-- UPDATE files SET local_path=?, local_size=?, sha256=?, status='DOWNLOADED'
WHERE id=? (`update_file_downloaded`). -/
def update_file_downloaded (s : Store) (fileId : Nat) (localPath : FPath)
    (localSize : Nat) (sha256 : Option String) : Store :=
  { s with files := s.files.map fun f =>
      if f.id == fileId then
        { f with localPath := some localPath, localSize := some localSize,
                 sha256 := sha256, status := .downloaded }
      else f }

/-- UPDATE files SET status='FAILED' WHERE id=? (`update_file_failed`). -/
def update_file_failed (s : Store) (fileId : Nat) : Store :=
  { s with files := s.files.map fun f =>
      if f.id == fileId then { f with status := .failed } else f }

/-- True when some row of `jobs` is an active job for this file — the rows the
partial unique index `idx_jobs_one_active_per_file` covers. -/
def hasActiveJobFor (jobs : List Job) (fileId : Nat) : Bool :=
  jobs.any fun j => j.fileId == fileId && j.status.isActive

/-- INSERT INTO jobs (file_id, message_id, status, available_at) VALUES
(?, ?, 'QUEUED', datetime('now')) (`insert_job`).  The `IntegrityError` raised
by the partial unique index when an active job for the file already exists is
caught and surfaced as `none`, leaving the store unchanged. -/
def insert_job (s : Store) (fileId messageId now : Nat) : Option Nat × Store :=
  if hasActiveJobFor s.jobs fileId then
    (none, s)
  else
    let j : Job :=
      { id := s.nextJobId, fileId := fileId, messageId := messageId,
        status := .queued, attempts := 0, lastError := none, availableAt := now,
        lockedBy := none, lockedAt := none, createdAt := now }
    (some s.nextJobId, { s with jobs := s.jobs ++ [j], nextJobId := s.nextJobId + 1 })

/-- The SELECT filter of `pick_and_lock_job`: status IN ('QUEUED','RETRY') AND
available_at <= datetime('now'). -/
def eligible (now : Nat) (j : Job) : Bool :=
  (j.status == .queued || j.status == .retry) && decide (j.availableAt ≤ now)

/-- ORDER BY created_at LIMIT 1 over the eligible rows, the earlier row winning
ties (row order stands in for rowid order). -/
def pickOldest (now : Nat) : List Job → Option Job
  | [] => none
  | j :: rest =>
    if eligible now j then
      match pickOldest now rest with
      | none => some j
      | some b => if b.createdAt < j.createdAt then some b else some j
    else pickOldest now rest

/-- The projection of a selected row returned by `pick_and_lock_job`
(SELECT id, file_id, message_id, attempts — fetched before the UPDATE, so
`attempts` is the pre-increment value). -/
structure ClaimRow where
  id : Nat
  fileId : Nat
  messageId : Nat
  attempts : Nat
deriving DecidableEq, Repr

/-- BEGIN IMMEDIATE; SELECT the oldest eligible job; UPDATE it to RUNNING with
locked_by/locked_at set and attempts incremented; COMMIT
(`pick_and_lock_job`).  The transaction is one atomic step. -/
def pick_and_lock_job (s : Store) (workerId : String) (now : Nat) :
    Option ClaimRow × Store :=
  match pickOldest now s.jobs with
  | none => (none, s)
  | some j =>
      let jobs := s.jobs.map fun k =>
        if k.id == j.id && (k.status == .queued || k.status == .retry) then
          { k with status := .running, lockedBy := some workerId,
                   lockedAt := some now, attempts := k.attempts + 1 }
        else k
      (some { id := j.id, fileId := j.fileId, messageId := j.messageId,
              attempts := j.attempts },
       { s with jobs := jobs })

/-- UPDATE jobs SET status='DONE' WHERE id=? (`update_job_done`). -/
def update_job_done (s : Store) (jobId : Nat) : Store :=
  { s with jobs := s.jobs.map fun k =>
      if k.id == jobId then { k with status := .done } else k }

/-- Pairwise form of the partial unique index: no two active rows share a
file id.  SQLite checks this as part of executing every statement that
touches indexed columns. -/
def noDupActive : List Job → Bool
  | [] => true
  | j :: rest =>
      (!j.status.isActive || !hasActiveJobFor rest j.fileId) && noDupActive rest

/-- The row rewrite of `update_job_retry`: SET status='RETRY', last_error=?,
available_at=now+backoff on the row with the given id. -/
def retryJobs (jobs : List Job) (jobId : Nat) (error : String)
    (backoffSeconds now : Nat) : List Job :=
  jobs.map fun k =>
    if k.id == jobId then
      { k with status := .retry, lastError := some error,
               availableAt := now + backoffSeconds }
    else k

/-- UPDATE jobs SET status='RETRY', last_error=?, available_at=datetime('now',
'+N seconds') WHERE id=? (`update_job_retry`).  When the updated row would
collide with another active job for the same file the unique index raises and
the transaction rolls back: modelled as `none`, state unchanged. -/
def update_job_retry (s : Store) (jobId : Nat) (error : String)
    (backoffSeconds now : Nat) : Option Store :=
  let jobs := retryJobs s.jobs jobId error backoffSeconds now
  if noDupActive jobs then some { s with jobs := jobs } else none

/-- UPDATE jobs SET status='FAILED', last_error=? WHERE id=?
(`update_job_failed`). -/
def update_job_failed (s : Store) (jobId : Nat) (error : String) : Store :=
  { s with jobs := s.jobs.map fun k =>
      if k.id == jobId then { k with status := .failed, lastError := some error }
      else k }

/-- The WHERE clause of `recover_stale_jobs`: status='RUNNING' AND locked_at <
datetime('now', '-N minutes').  A NULL locked_at compares false in SQL. -/
def staleCond (staleMinutes now : Nat) (j : Job) : Bool :=
  j.status == .running &&
    match j.lockedAt with
    | some t => decide (t + staleMinutes * 60 < now)
    | none => false

/-- UPDATE jobs SET status='RETRY', available_at=datetime('now') WHERE
status='RUNNING' AND locked_at < datetime('now', '-N minutes'); returns
cursor.rowcount (`recover_stale_jobs`). -/
def recover_stale_jobs (s : Store) (staleMinutes now : Nat) : Nat × Store :=
  ((s.jobs.filter (staleCond staleMinutes now)).length,
   { s with jobs := s.jobs.map fun j =>
       if staleCond staleMinutes now j then
         { j with status := .retry, availableAt := now }
       else j })

/-- Exponential backoff of `worker.calculate_backoff`:
min(2 ** attempts * 30, 21600). -/
def calculate_backoff (attempts : Nat) : Nat :=
  min (2 ^ attempts * 30) 21600

/-! Content locator (`app/file_manager.py`), over `List Char`. -/

/-- A character kept by the allow-list regex of `sanitize_filename`:
`[^一-鿿A-Za-z0-9._\-]` is removed. -/
def allowedChar (c : Char) : Bool :=
  (decide (0x4e00 ≤ c.toNat) && decide (c.toNat ≤ 0x9fff))
  || (decide (0x41 ≤ c.toNat) && decide (c.toNat ≤ 0x5a))
  || (decide (0x61 ≤ c.toNat) && decide (c.toNat ≤ 0x7a))
  || (decide (0x30 ≤ c.toNat) && decide (c.toNat ≤ 0x39))
  || c == '.' || c == '_' || c == '-'

/-- re.sub of `_+` with `_`: collapse each run of underscores to one. -/
def collapseUnderscores : List Char → List Char
  | [] => []
  | [c] => [c]
  | c1 :: c2 :: rest =>
      if c1 == '_' && c2 == '_' then collapseUnderscores (c2 :: rest)
      else c1 :: collapseUnderscores (c2 :: rest)

/-- A character removed from the ends by Python's strip of the set "_.". -/
def stripChar (c : Char) : Bool := c == '_' || c == '.'

/-- Python str.strip of the character set "_.": drop such characters from both
ends. -/
def stripEnds (l : List Char) : List Char :=
  ((l.dropWhile stripChar).reverse.dropWhile stripChar).reverse

/-- Python rsplit(".", 1) when a dot is present: `some (before, after)` with
the input equal to before ++ "." ++ after and no dot in after. -/
def rsplitDot : List Char → Option (List Char × List Char)
  | [] => none
  | c :: rest =>
    match rsplitDot rest with
    | some p => some (c :: p.1, p.2)
    | none => if c == '.' then some ([], rest) else none

/-- The length-cap step of `sanitize_filename`: keep a short extension (at
most 10 characters) when truncating past max_length. -/
def truncateName (maxLength : Nat) (l : List Char) : List Char :=
  if l.length ≤ maxLength then l
  else
    match rsplitDot l with
    | some p =>
        if p.2.length ≤ 10 then
          p.1.take (maxLength - p.2.length - 1) ++ '.' :: p.2
        else l.take maxLength
    | none => l.take maxLength

/-- The sanitiser of `file_manager.sanitize_filename`: spaces to underscores,
drop characters outside the allow-list, collapse underscore runs, strip
leading/trailing "_.", truncate preserving a short extension. -/
def sanitize_filename (maxLength : Nat) (name : List Char) : List Char :=
  if name.isEmpty then []
  else
    truncateName maxLength
      (stripEnds (collapseUnderscores
        ((name.map fun c => if c == ' ' then '_' else c).filter allowedChar)))

/-- FILES_PATH, the archive root (config default "/data/files"), as one opaque
path component. -/
def FILES_PATH : List Char := "/data/files".toList

/-- The path locator `file_manager.get_archive_path`: directory
FILES_PATH/source_type/`{chat_id}_{sanitized title}` (bare chat id when the
title is missing or sanitises away), filename
`{file_unique_id}__{sanitized name}` or `{file_unique_id}.bin`. -/
def get_archive_path (sourceType : List Char) (sourceChatId : Int)
    (title : Option (List Char)) (fileUniqueId : List Char)
    (originalName : Option (List Char)) : FPath × FPath :=
  let sanitizedTitle :=
    match title with
    | some t => if t.isEmpty then [] else sanitize_filename 64 t
    | none => []
  let dirName :=
    if sanitizedTitle.isEmpty then (toString sourceChatId).toList
    else (toString sourceChatId).toList ++ '_' :: sanitizedTitle
  let archiveDir : FPath := [FILES_PATH, sourceType, dirName]
  let filename :=
    match originalName with
    | some n =>
        if n.isEmpty then fileUniqueId ++ ".bin".toList
        else fileUniqueId ++ '_' :: '_' :: sanitize_filename 64 n
    | none => fileUniqueId ++ ".bin".toList
  (archiveDir, archiveDir ++ [filename])

/-- The local filesystem as a finite map from paths to file sizes. -/
structure FS where
  entries : List (FPath × Nat)
deriving DecidableEq, Repr

/-- stat().st_size of the file at a path, `none` when it does not exist. -/
def FS.sizeAt? (fs : FS) (p : FPath) : Option Nat :=
  (fs.entries.find? fun e => e.1 == p).map fun e => e.2

/-- Writing (or overwriting) the file at a path, as done by the rename of the
downloaded temp file onto the target. -/
def FS.put (fs : FS) (p : FPath) (size : Nat) : FS :=
  { entries := (p, size) :: fs.entries.filter fun e => !(e.1 == p) }

/-- `file_manager.verify_file`: the path exists, and when an expected size is
given, stat().st_size equals it. -/
def verify_file (fs : FS) (p : FPath) (expectedSize : Option Nat) : Bool :=
  match fs.sizeAt? p with
  | none => false
  | some actual =>
      match expectedSize with
      | none => true
      | some e => actual == e

/-! Worker (`app/worker.py`).  One `process_job` run acts on a `World`; the
two-stage download is abstracted as an oracle from target path to either an
error message or the size of the file it leaves at that path. -/

/-- Whole observable state a worker run touches: the store, the filesystem,
the markdown audit log (append-only blocks), the persisted
failure-statistics records, and the archive paths written this run. -/
structure World where
  store : Store
  fs : FS
  notes : List String
  failureRecords : List String
  writes : List FPath
deriving DecidableEq, Repr

/-- The download step as an oracle: given the target path, the downloader
either fails with an error message or succeeds leaving a file of the returned
size at the target. -/
abbrev DlOracle := FPath → Except String Nat

/-- The markdown COMPLETE block appended by `append_job_complete`. -/
def completeNote (jobId messageId : Nat) (fileUniqueId : String) : String :=
  s!"COMPLETE job:{jobId} msg:{messageId} file:{fileUniqueId}"

/-- The markdown FAILED block appended by `append_job_failed`. -/
def failedNote (jobId messageId : Nat) (fileUniqueId error : String) : String :=
  s!"FAILED job:{jobId} msg:{messageId} file:{fileUniqueId} error:{error}"

/-- The default source dict used by `process_job` when the message has no
source: `{"source_type": "unknown", "source_chat_id": 0, "title": None}`. -/
def unknownSource : SourceRec :=
  { id := 0, sourceType := "unknown", sourceChatId := 0, title := none,
    username := none }

/-- Result of the try-block of `process_job`: success with the new world, or
a raised exception message together with the world as changed so far (the
download's write to the target survives a later verification failure). -/
inductive TryResult where
  | ok (w : World)
  | err (msg : String) (w : World)
deriving DecidableEq, Repr

/-- The try-block of `worker.process_job`: re-check the file (short-circuit to
DONE when already downloaded and verified), resolve the target path, download,
verify size, hash, record DOWNLOADED and DONE, append the COMPLETE block.
Every raise lands in `TryResult.err`. -/
def process_job_try (w : World) (dl : DlOracle) (hashFn : FPath → String)
    (job : ClaimRow) : TryResult :=
  match get_file_by_id w.store job.fileId with
  | none => .err "File not found in database" w
  | some fileRecord =>
    let fileSize := fileRecord.fileSize
    let alreadyDone :=
      fileRecord.status == .downloaded &&
        match fileRecord.localPath with
        | some p => verify_file w.fs p fileSize
        | none => false
    if alreadyDone then
      .ok { w with store := update_job_done w.store job.id }
    else
      match get_message_by_id w.store job.messageId with
      | none => .err "Message not found in database" w
      | some message =>
        let source :=
          match message.sourceId with
          | some sid =>
            match get_source_by_id w.store sid with
            | some src => src
            | none => unknownSource
          | none => unknownSource
        let targetPath :=
          (get_archive_path source.sourceType.toList source.sourceChatId
            (source.title.map String.toList) fileRecord.fileUniqueId.toList
            (fileRecord.originalName.map String.toList)).2
        match dl targetPath with
        | .error e => .err e w
        | .ok size =>
          let w1 := { w with fs := w.fs.put targetPath size,
                             writes := w.writes ++ [targetPath] }
          if !verify_file w1.fs targetPath fileSize then
            .err "File verification failed: size mismatch" w1
          else
            let sha := hashFn targetPath
            let st1 := update_file_downloaded w1.store job.fileId targetPath
              size (some sha)
            let st2 := update_job_done st1 job.id
            let notes2 := w1.notes ++
              [completeNote job.id job.messageId fileRecord.fileUniqueId]
            .ok { w1 with store := st2, notes := notes2 }

/-- `worker.process_job`: run the try-block; on an exception decide terminal
failure (attempts >= MAX_ATTEMPTS: job FAILED, file FAILED, markdown FAILED
block when message and file resolve) versus retry with
`calculate_backoff(attempts)`.  A failed `update_job_retry` (rolled-back
IntegrityError) propagates to the loop, leaving the store unchanged. -/
def process_job (w : World) (maxAttempts : Nat) (dl : DlOracle)
    (hashFn : FPath → String) (now : Nat) (job : ClaimRow) : World :=
  match process_job_try w dl hashFn job with
  | .ok w' => w'
  | .err msg w' =>
    if maxAttempts ≤ job.attempts then
      let st1 := update_job_failed w'.store job.id msg
      let st2 := update_file_failed st1 job.fileId
      let notes' :=
        match get_message_by_id st2 job.messageId, get_file_by_id st2 job.fileId with
        | some m, some f =>
            w'.notes ++ [failedNote job.id job.messageId f.fileUniqueId msg]
        | _, _ => w'.notes
      { w' with store := st2, notes := notes' }
    else
      match update_job_retry w'.store job.id msg (calculate_backoff job.attempts) now with
      | some st => { w' with store := st }
      | none => w'

/-! Ingestion dispatcher (`app/bot.py`, the per-attachment body of
`handle_message`, lines 526-621). -/

/-- One decoded attachment as produced by `extract_file_info`. -/
structure AttachmentInfo where
  kind : String
  fileId : String
  fileUniqueId : String
  fileSize : Option Nat
  mimeType : Option String
  originalName : Option String
deriving DecidableEq, Repr

/-- What the dispatcher did with one attachment (the entry appended to the
`attachments` list for the markdown block). -/
inductive AttOutcome where
  | duplicate (localPath : FPath)
  | queuedNew (jobId : Nat)
  | queuedExisting
deriving DecidableEq, Repr

/-- The duplicate check of the dispatcher: the upserted file is already
DOWNLOADED, has a recorded local path, and `verify_file` (called without an
expected size) succeeds. -/
def dupCheck (s2 : Store) (fs : FS) (fileId : Nat) : Option FPath :=
  match get_file_by_id s2 fileId with
  | some f =>
      if f.status == .downloaded then
        match f.localPath with
        | some p => if verify_file fs p none then some p else none
        | none => none
      else none
  | none => none

/-- The per-attachment body of `bot.handle_message`: upsert the file, link it
to the message, skip when already DOWNLOADED with a verifiable artifact, else
insert a job (tolerating the already-exists outcome) and schedule the
download as a background task.  No download runs synchronously here; the
scheduled task is outside this step. -/
def handle_attachment (s : Store) (fs : FS) (messageId : Nat)
    (sourceId : Option Nat) (caption : Option String) (att : AttachmentInfo)
    (now : Nat) : Store × AttOutcome :=
  let r := upsert_file s att.fileUniqueId att.fileId att.fileSize att.mimeType
    att.originalName
  let s2 := insert_message_file r.2 messageId r.1 att.fileId
    att.fileUniqueId att.kind caption
  match dupCheck s2 fs r.1 with
  | some p => (s2, .duplicate p)
  | none =>
    let r2 := insert_job s2 r.1 messageId now
    match r2.1 with
    | some jid => (r2.2, .queuedNew jid)
    | none => (r2.2, .queuedExisting)

/-! Reachability of store states under the job-mutating operations. -/

/-- Number of active jobs a file has. -/
def countActive (jobs : List Job) (fid : Nat) : Nat :=
  (jobs.filter fun j => j.fileId == fid && j.status.isActive).length

/-- One store transition: any job-mutating operation of `database.py` with any
arguments, plus the file-table operations (which leave `jobs` untouched). -/
inductive Step : Store → Store → Prop where
  | insertJob (s : Store) (fileId messageId now : Nat) :
      Step s (insert_job s fileId messageId now).2
  | pick (s : Store) (workerId : String) (now : Nat) :
      Step s (pick_and_lock_job s workerId now).2
  | jobDone (s : Store) (jobId : Nat) : Step s (update_job_done s jobId)
  | jobRetry (s s' : Store) (jobId : Nat) (error : String) (backoff now : Nat)
      (h : update_job_retry s jobId error backoff now = some s') : Step s s'
  | jobFailed (s : Store) (jobId : Nat) (error : String) :
      Step s (update_job_failed s jobId error)
  | recover (s : Store) (staleMinutes now : Nat) :
      Step s (recover_stale_jobs s staleMinutes now).2
  | fileUpsert (s : Store) (fuid handle : String) (size : Option Nat)
      (mime name : Option String) :
      Step s (upsert_file s fuid handle size mime name).2
  | fileLink (s : Store) (messageId fileId : Nat) (a b c : String)
      (cap : Option String) :
      Step s (insert_message_file s messageId fileId a b c cap)
  | fileDownloaded (s : Store) (fileId : Nat) (p : FPath) (size : Nat)
      (sha : Option String) :
      Step s (update_file_downloaded s fileId p size sha)
  | fileFailed (s : Store) (fileId : Nat) : Step s (update_file_failed s fileId)

/-- A store state reachable from the empty store by any interleaving of the
modelled operations. -/
inductive Reachable : Store → Prop where
  | init : Reachable Store.empty
  | step {s s' : Store} : Reachable s → Step s s' → Reachable s'

/-! Character-level predicates used to reason about `sanitize_filename`
output. -/

/-- No two consecutive underscores anywhere in the list. -/
def noUU : List Char → Bool
  | c1 :: c2 :: rest => !(c1 == '_' && c2 == '_') && noUU (c2 :: rest)
  | _ => true

/-- The first character, when there is one, is not an underscore. -/
def headNotU : List Char → Bool
  | c :: _ => !(c == '_')
  | [] => true

/-! Concrete fixtures used by witnesses and counterexamples. -/

/-- A reachable store: one job inserted into the fresh store. -/
def c1Store : Store := (insert_job Store.empty 1 1 0).2

/-- A QUEUED job eligible at time 0, for file 1. -/
def c2Job1 : Job :=
  { id := 1, fileId := 1, messageId := 1, status := .queued, attempts := 0,
    lastError := none, availableAt := 0, lockedBy := none, lockedAt := none,
    createdAt := 0 }

/-- A later-created QUEUED job for file 2. -/
def c2Job2 : Job := { c2Job1 with id := 2, fileId := 2, createdAt := 5 }

/-- A store with two eligible queued jobs. -/
def c2Store : Store := { Store.empty with jobs := [c2Job1, c2Job2], nextJobId := 3 }

/-- A RUNNING job locked at time 0. -/
def c5Stale : Job :=
  { id := 1, fileId := 1, messageId := 1, status := .running, attempts := 1,
    lastError := none, availableAt := 0, lockedBy := some "w",
    lockedAt := some 0, createdAt := 0 }

/-- A RUNNING job locked recently. -/
def c5Fresh : Job := { c5Stale with id := 2, fileId := 2, lockedAt := some 10000 }

/-- A QUEUED job, untouched by stale recovery. -/
def c5Queued : Job :=
  { id := 3, fileId := 3, messageId := 1, status := .queued, attempts := 0,
    lastError := none, availableAt := 0, lockedBy := none, lockedAt := none,
    createdAt := 0 }

/-- A store holding one stale RUNNING job, one fresh RUNNING job and one
QUEUED job. -/
def c5Store : Store :=
  { Store.empty with jobs := [c5Stale, c5Fresh, c5Queued], nextJobId := 4 }

/-- The archive path of the already-downloaded fixture file. -/
def c4Path : FPath := [FILES_PATH, "channel".toList, "5".toList, "u4.bin".toList]

/-- A file row already DOWNLOADED with a recorded local path and size 7. -/
def c4File : FileRec :=
  { id := 1, fileUniqueId := "u4", lastSeenFileId := some "h",
    fileSize := some 7, mimeType := none, originalName := none,
    localPath := some c4Path, localSize := some 7, sha256 := some "s",
    status := .downloaded }

/-- A world where file 1 is DOWNLOADED and its artifact verifies on disk,
with a freshly claimed job for it. -/
def c4World : World :=
  { store := { Store.empty with
      files := [c4File],
      jobs := [{ id := 1, fileId := 1, messageId := 1, status := .running,
                 attempts := 1, lastError := none, availableAt := 0,
                 lockedBy := some "w", lockedAt := some 0, createdAt := 0 }],
      nextJobId := 2, nextFileId := 2 },
    fs := { entries := [(c4Path, 7)] }, notes := [], failureRecords := [],
    writes := [] }

/-- The claimed row for the c4 world's job. -/
def c4Row : ClaimRow := { id := 1, fileId := 1, messageId := 1, attempts := 1 }

/-- A NEW file row awaiting download. -/
def c8File : FileRec :=
  { id := 1, fileUniqueId := "u8", lastSeenFileId := some "h",
    fileSize := some 5, mimeType := none, originalName := none,
    localPath := none, localSize := none, sha256 := none, status := .new }

/-- The message that carried the c8 file. -/
def c8Msg : MessageRec :=
  { id := 1, tgChatId := 1, tgMessageId := 1, receivedAt := "2024-01-01",
    sourceId := none }

/-- A world whose single job has been claimed for the eighth retry (returned
attempts = 8) of a persistently failing download. -/
def c8World : World :=
  { store := { Store.empty with
      files := [c8File], messages := [c8Msg],
      jobs := [{ id := 1, fileId := 1, messageId := 1, status := .running,
                 attempts := 9, lastError := some "e", availableAt := 0,
                 lockedBy := some "w", lockedAt := some 0, createdAt := 0 }],
      nextJobId := 2, nextFileId := 2 },
    fs := { entries := [] }, notes := [], failureRecords := [], writes := [] }

/-- The claimed row handed to `process_job` in the c8 scenario. -/
def c8Row : ClaimRow := { id := 1, fileId := 1, messageId := 1, attempts := 8 }

/-- A file row for unique id "u1" with every descriptive field known. -/
def c9FileRow : FileRec :=
  { id := 1, fileUniqueId := "u1", lastSeenFileId := some "h1",
    fileSize := some 100, mimeType := some "video/mp4",
    originalName := some "a.mp4", localPath := none,
    localSize := none, sha256 := none, status := .new }

/-- A store already holding that file row. -/
def c9Store : Store := { Store.empty with files := [c9FileRow], nextFileId := 2 }

/-- A 5 MB attachment (below the spec's stated 20 MB threshold). -/
def c7Att : AttachmentInfo :=
  { kind := "video", fileId := "fid7", fileUniqueId := "u7",
    fileSize := some 5000000, mimeType := some "video/mp4",
    originalName := some "clip.mp4" }

/-- The error every download attempt returns in the persistent-failure
scenario. -/
def c10ErrMsg : String := "transient error"

/-- A download oracle that always fails. -/
def c10Dl : DlOracle := fun _ => .error c10ErrMsg

/-- The file being retried in the persistent-failure scenario. -/
def c10File : FileRec :=
  { id := 1, fileUniqueId := "u10", lastSeenFileId := some "h",
    fileSize := some 5, mimeType := none, originalName := none,
    localPath := none, localSize := none, sha256 := none, status := .new }

/-- The message of the persistent-failure scenario. -/
def c10Msg : MessageRec :=
  { id := 1, tgChatId := 1, tgMessageId := 1, receivedAt := "2024-01-01",
    sourceId := none }

/-- The wall-clock instant of the (k+1)-th execution; consecutive instants
are farther apart than the 21600-second backoff cap. -/
def T (k : Nat) : Nat := 30000 * k

/-- The single job of the persistent-failure scenario after k failed
executions: fresh QUEUED at k = 0, RETRY with the backoff computed from the
previous execution's pre-increment attempts afterwards. -/
def c10Job : Nat → Job
  | 0 =>
    { id := 1, fileId := 1, messageId := 1, status := .queued, attempts := 0,
      lastError := none, availableAt := 0, lockedBy := none, lockedAt := none,
      createdAt := 0 }
  | j + 1 =>
    { id := 1, fileId := 1, messageId := 1, status := .retry,
      attempts := j + 1, lastError := some c10ErrMsg,
      availableAt := T j + calculate_backoff j, lockedBy := some "w",
      lockedAt := some (T j), createdAt := 0 }

/-- The world of the persistent-failure scenario after k failed executions. -/
def c10World (k : Nat) : World :=
  { store := { Store.empty with
      files := [c10File], messages := [c10Msg], jobs := [c10Job k],
      nextJobId := 2, nextFileId := 2 },
    fs := { entries := [] }, notes := [], failureRecords := [], writes := [] }

/-- The terminal world after execution N+1 under maximum N: job FAILED, file
FAILED, one markdown FAILED block. -/
def c10Final (N : Nat) : World :=
  { store := { Store.empty with
      files := [{ c10File with status := .failed }], messages := [c10Msg],
      jobs := [{ id := 1, fileId := 1, messageId := 1, status := .failed,
                 attempts := N + 1, lastError := some c10ErrMsg,
                 availableAt := (c10Job N).availableAt, lockedBy := some "w",
                 lockedAt := some (T N), createdAt := 0 }],
      nextJobId := 2, nextFileId := 2 },
    fs := { entries := [] }, notes := [failedNote 1 1 "u10" c10ErrMsg],
    failureRecords := [], writes := [] }

/-- One claim-then-process cycle of the worker loop at instant `T k`, with
the always-failing download oracle. -/
def c10Cycle (maxAttempts : Nat) (w : World) (k : Nat) : World :=
  match pick_and_lock_job w.store "w" (T k) with
  | (some row, st) =>
      process_job { w with store := st } maxAttempts c10Dl (fun _ => "sha")
        (T k) row
  | (none, _) => w

/-- The worker loop run from the fresh job: k cycles of claim-and-fail. -/
def c10Run (maxAttempts : Nat) : Nat → World
  | 0 => c10World 0
  | k + 1 => c10Cycle maxAttempts (c10Run maxAttempts k) k

/-! Theorems. -/

/-- C3: for every natural number attempts the backoff function returns
min(2^attempts x 30, 21600) seconds; the table for attempts 0..10 is
30, 60, 120, 240, 480, 960, 1920, 3840, 7680, 15360, 21600; and the result
never exceeds 21600 seconds (6 hours). -/
theorem calculate_backoff_spec :
    (∀ attempts : Nat,
      calculate_backoff attempts = min (2 ^ attempts * 30) 21600)
    ∧ [calculate_backoff 0, calculate_backoff 1, calculate_backoff 2,
       calculate_backoff 3, calculate_backoff 4, calculate_backoff 5,
       calculate_backoff 6, calculate_backoff 7, calculate_backoff 8,
       calculate_backoff 9, calculate_backoff 10] =
      [30, 60, 120, 240, 480, 960, 1920, 3840, 7680, 15360, 21600]
    ∧ ∀ attempts : Nat, calculate_backoff attempts ≤ 21600 :=
  ⟨fun _ => rfl, by decide, fun _ => Nat.min_le_right _ _⟩

/-- C9 counterexample: on a store whose file row for "u1" has a known size
(100), an upsert supplying size 200 overwrites the stored value with 200,
while the claim asserts an already non-null stored value stays unchanged. -/
theorem upsert_file_overwrites_known_size :
    ((upsert_file c9Store "u1" "h2" (some 200) none none).2.files.map
        fun f => f.fileSize) = [some 200]
    ∧ some (200 : Nat) ≠ some 100 := by
  refine ⟨by rfl, by decide⟩

/-- C9 amended: on an existing content id, upsert_file always replaces the
stored handle; for each descriptive field (size, MIME type, name) a null
incoming value preserves the stored one and a non-null incoming value
overwrites it (COALESCE of the new value first); other rows are untouched
and no job row changes. -/
theorem upsert_file_refresh_and_coalesce (s : Store) (fuid handle : String)
    (size : Option Nat) (mime name : Option String) (f : FileRec)
    (hfind : s.files.find? (fun g => g.fileUniqueId == fuid) = some f) :
    (upsert_file s fuid handle size mime name).1 = f.id
    ∧ ({ f with
          lastSeenFileId := some handle
          fileSize := coalesce size f.fileSize
          mimeType := coalesce mime f.mimeType
          originalName := coalesce name f.originalName } : FileRec) ∈
        (upsert_file s fuid handle size mime name).2.files
    ∧ (∀ g ∈ s.files, g.id ≠ f.id →
        g ∈ (upsert_file s fuid handle size mime name).2.files)
    ∧ (size = none → coalesce size f.fileSize = f.fileSize)
    ∧ (∀ v : Nat, size = some v → coalesce size f.fileSize = some v)
    ∧ (mime = none → coalesce mime f.mimeType = f.mimeType)
    ∧ (∀ v : String, mime = some v → coalesce mime f.mimeType = some v)
    ∧ (name = none → coalesce name f.originalName = f.originalName)
    ∧ (∀ v : String, name = some v → coalesce name f.originalName = some v)
    ∧ (upsert_file s fuid handle size mime name).2.jobs = s.jobs := by
  have hmem : f ∈ s.files := List.mem_of_find?_eq_some hfind
  refine ⟨by simp [upsert_file, hfind], ?_, ?_, ?_, ?_, ?_, ?_, ?_, ?_, ?_⟩
  · have h := List.mem_map_of_mem
      (fun g => if g.id == f.id then
        ({ f with
           lastSeenFileId := some handle
           fileSize := coalesce size f.fileSize
           mimeType := coalesce mime f.mimeType
           originalName := coalesce name f.originalName } : FileRec) else g) hmem
    simp only [beq_self_eq_true, if_true] at h
    simpa [upsert_file, hfind] using h
  · intro g hg hne
    have h := List.mem_map_of_mem
      (fun g => if g.id == f.id then
        ({ f with
           lastSeenFileId := some handle
           fileSize := coalesce size f.fileSize
           mimeType := coalesce mime f.mimeType
           originalName := coalesce name f.originalName } : FileRec) else g) hg
    have hgf : (g.id == f.id) = false := by simpa using hne
    simp only [hgf, Bool.false_eq_true, if_false] at h
    simpa [upsert_file, hfind] using h
  · rintro rfl; rfl
  · rintro v rfl; rfl
  · rintro rfl; rfl
  · rintro v rfl; rfl
  · rintro rfl; rfl
  · rintro v rfl; rfl
  · simp [upsert_file, hfind]

/-- C9 witness: the amended theorem applied to the concrete store whose "u1"
row has size 100, with an upsert supplying size 200 and no MIME/name. -/
theorem upsert_file_refresh_witness :
    ({ c9FileRow with
        lastSeenFileId := some "h2"
        fileSize := coalesce (some 200) c9FileRow.fileSize
        mimeType := coalesce none c9FileRow.mimeType
        originalName := coalesce none c9FileRow.originalName } : FileRec) ∈
      (upsert_file c9Store "u1" "h2" (some 200) none none).2.files :=
  (upsert_file_refresh_and_coalesce c9Store "u1" "h2" (some 200) none none
    c9FileRow (by rfl)).2.1

/-- C5: recover_stale transitions every RUNNING job with lock time older than
the threshold to RETRY eligible immediately, leaves RUNNING jobs within the
threshold and jobs in any other status unchanged, keeps the table size, and
returns the number of transitioned jobs. -/
theorem recover_stale_spec (s : Store) (threshold now : Nat) :
    (recover_stale_jobs s threshold now).1 =
        (s.jobs.filter (staleCond threshold now)).length
    ∧ (∀ j ∈ s.jobs, ∀ t, j.status = .running → j.lockedAt = some t →
        t + threshold * 60 < now →
        ({ j with status := .retry, availableAt := now } : Job) ∈
          (recover_stale_jobs s threshold now).2.jobs)
    ∧ (∀ j ∈ s.jobs, ∀ t, j.status = .running → j.lockedAt = some t →
        ¬ t + threshold * 60 < now →
        j ∈ (recover_stale_jobs s threshold now).2.jobs)
    ∧ (∀ j ∈ s.jobs, j.status ≠ .running →
        j ∈ (recover_stale_jobs s threshold now).2.jobs)
    ∧ (recover_stale_jobs s threshold now).2.jobs.length = s.jobs.length := by
  refine ⟨rfl, ?_, ?_, ?_, by simp [recover_stale_jobs]⟩
  · intro j hj t hst hla hlt
    have hc : staleCond threshold now j = true := by
      simp [staleCond, hst, hla, hlt]
    have h := List.mem_map_of_mem
      (fun j => if staleCond threshold now j then
        ({ j with status := JobStatus.retry, availableAt := now } : Job) else j) hj
    simp only [hc, if_true] at h
    simpa [recover_stale_jobs] using h
  · intro j hj t hst hla hlt
    have hc : staleCond threshold now j = false := by
      simp [staleCond, hst, hla, hlt]
    have h := List.mem_map_of_mem
      (fun j => if staleCond threshold now j then
        ({ j with status := JobStatus.retry, availableAt := now } : Job) else j) hj
    simp only [hc, Bool.false_eq_true, if_false] at h
    simpa [recover_stale_jobs] using h
  · intro j hj hst
    have hc : staleCond threshold now j = false := by
      simp only [staleCond, Bool.and_eq_false_iff]
      left
      simpa using hst
    have h := List.mem_map_of_mem
      (fun j => if staleCond threshold now j then
        ({ j with status := JobStatus.retry, availableAt := now } : Job) else j) hj
    simp only [hc, Bool.false_eq_true, if_false] at h
    simpa [recover_stale_jobs] using h

/-- C5 witness: on the concrete three-job store at now = 10000 with a
30-minute threshold, the stale RUNNING job (locked at 0) is transitioned to
RETRY eligible at 10000. -/
theorem recover_stale_witness :
    ({ c5Stale with status := JobStatus.retry, availableAt := 10000 } : Job) ∈
      (recover_stale_jobs c5Store 30 10000).2.jobs :=
  (recover_stale_spec c5Store 30 10000).2.1 c5Stale (by simp [c5Store])
    0 rfl rfl (by decide)

/-! Counting lemmas for the one-active-job-per-file invariant. -/

theorem countActive_cons (j : Job) (jobs : List Job) (fid : Nat) :
    countActive (j :: jobs) fid =
      (if j.fileId == fid && j.status.isActive then 1 else 0)
        + countActive jobs fid := by
  simp only [countActive, List.filter_cons]
  split
  · simp [Nat.add_comm]
  · simp

theorem countActive_append (a b : List Job) (fid : Nat) :
    countActive (a ++ b) fid = countActive a fid + countActive b fid := by
  simp [countActive, List.filter_append]

theorem hasActive_false_iff (jobs : List Job) (fid : Nat) :
    hasActiveJobFor jobs fid = false ↔ countActive jobs fid = 0 := by
  simp only [hasActiveJobFor, countActive, List.any_eq_false,
    List.length_eq_zero, List.filter_eq_nil_iff]

theorem countActive_tail_le (j : Job) (jobs : List Job) (fid : Nat) :
    countActive jobs fid ≤ countActive (j :: jobs) fid := by
  rw [countActive_cons]
  exact Nat.le_add_left _ _

theorem band_left {a b : Bool} (h : (a && b) = true) : a = true := by
  simp only [Bool.and_eq_true] at h
  exact h.1

theorem band_right {a b : Bool} (h : (a && b) = true) : b = true := by
  simp only [Bool.and_eq_true] at h
  exact h.2

theorem bor_cases {a b : Bool} (h : (a || b) = true) : a = true ∨ b = true := by
  simpa using h

theorem noDupActive_iff (jobs : List Job) :
    noDupActive jobs = true ↔ ∀ fid, countActive jobs fid ≤ 1 := by
  induction jobs with
  | nil => simp [noDupActive, countActive]
  | cons j rest ih =>
    simp only [noDupActive, Bool.and_eq_true, ih]
    constructor
    · rintro ⟨h1, h2⟩ fid
      rw [countActive_cons]
      by_cases hj : (j.fileId == fid && j.status.isActive) = true
      · have hact : j.status.isActive = true := band_right hj
        have hfid : j.fileId = fid := by
          have := band_left hj
          simpa using this
        have hno : hasActiveJobFor rest j.fileId = false := by
          rcases bor_cases h1 with hl | hr
          · rw [Bool.not_eq_true'] at hl
            rw [hl] at hact
            cases hact
          · rwa [Bool.not_eq_true'] at hr
        have hz : countActive rest fid = 0 :=
          (hasActive_false_iff rest fid).mp (hfid ▸ hno)
        simp [hj, hz]
      · rw [Bool.not_eq_true] at hj
        simp only [hj, Bool.false_eq_true, if_false, Nat.zero_add]
        exact h2 fid
    · intro h
      refine ⟨?_, fun fid => Nat.le_trans (countActive_tail_le j rest fid) (h fid)⟩
      by_cases hact : j.status.isActive = true
      · have hcnt := h j.fileId
        rw [countActive_cons] at hcnt
        have hj : (j.fileId == j.fileId && j.status.isActive) = true := by
          simp [hact]
        rw [hj, if_pos rfl] at hcnt
        have hz : countActive rest j.fileId = 0 := by omega
        have := (hasActive_false_iff rest j.fileId).mpr hz
        simp [this]
      · rw [Bool.not_eq_true] at hact
        simp [hact]

theorem countActive_map_le (f : Job → Job) (jobs : List Job) (fid : Nat)
    (hfid : ∀ j, (f j).fileId = j.fileId)
    (hact : ∀ j, (f j).status.isActive = true → j.status.isActive = true) :
    countActive (jobs.map f) fid ≤ countActive jobs fid := by
  induction jobs with
  | nil => simp [countActive]
  | cons j rest ih =>
    rw [List.map_cons, countActive_cons, countActive_cons]
    refine Nat.add_le_add ?_ ih
    by_cases h : ((f j).fileId == fid && (f j).status.isActive) = true
    · have h1 : (j.fileId == fid) = true := by
        have := band_left h
        rwa [hfid j] at this
      have h2 : j.status.isActive = true := hact j (band_right h)
      simp [h, h1, h2]
    · rw [Bool.not_eq_true] at h
      simp [h]

/-- The fresh job row `insert_job` appends. -/
def freshJob (s : Store) (fileId messageId now : Nat) : Job :=
  { id := s.nextJobId, fileId := fileId, messageId := messageId,
    status := JobStatus.queued, attempts := 0, lastError := none,
    availableAt := now, lockedBy := none, lockedAt := none, createdAt := now }

/-- Any single step of the modelled operations preserves the bound of at most
one active job per file. -/
theorem step_preserves_invariant {s s' : Store} (hs : Step s s')
    (h : ∀ fid, countActive s.jobs fid ≤ 1) :
    ∀ fid, countActive s'.jobs fid ≤ 1 := by
  cases hs with
  | insertJob fileId messageId now =>
    by_cases hg : hasActiveJobFor s.jobs fileId = true
    · simpa [insert_job, hg] using h
    · rw [Bool.not_eq_true] at hg
      intro fid
      simp only [insert_job, hg, Bool.false_eq_true, if_false]
      show countActive (s.jobs ++ [freshJob s fileId messageId now]) fid ≤ 1
      rw [countActive_append]
      by_cases hf : fileId = fid
      · subst hf
        have hz : countActive s.jobs fileId = 0 :=
          (hasActive_false_iff s.jobs fileId).mp hg
        have hone : countActive [freshJob s fileId messageId now] fileId ≤ 1 := by
          simp [countActive, freshJob, JobStatus.isActive]
        omega
      · have hbeq : (fileId == fid) = false := by simpa using hf
        have hz2 : countActive [freshJob s fileId messageId now] fid = 0 := by
          simp [countActive, freshJob, hbeq]
        rw [hz2]
        simpa using h fid
  | pick workerId now =>
    intro fid
    cases hp : pickOldest now s.jobs with
    | none => simpa [pick_and_lock_job, hp] using h fid
    | some j =>
      simp only [pick_and_lock_job, hp]
      refine Nat.le_trans (countActive_map_le _ _ _ ?_ ?_) (h fid)
      · intro k
        by_cases hk : (k.id == j.id && (k.status == JobStatus.queued
            || k.status == JobStatus.retry)) = true
        · simp [hk]
        · rw [Bool.not_eq_true] at hk
          simp [hk]
      · intro k hka
        by_cases hk : (k.id == j.id && (k.status == JobStatus.queued
            || k.status == JobStatus.retry)) = true
        · rcases bor_cases (band_right hk) with hq | hr
          · have : k.status = JobStatus.queued := by simpa using hq
            simp [this, JobStatus.isActive]
          · have : k.status = JobStatus.retry := by simpa using hr
            simp [this, JobStatus.isActive]
        · rw [Bool.not_eq_true] at hk
          simpa [hk] using hka
  | jobDone jobId =>
    intro fid
    simp only [update_job_done]
    refine Nat.le_trans (countActive_map_le _ _ _ ?_ ?_) (h fid)
    · intro k
      by_cases hk : (k.id == jobId) = true
      · simp [hk]
      · rw [Bool.not_eq_true] at hk
        simp [hk]
    · intro k hka
      by_cases hk : (k.id == jobId) = true
      · simp [hk, JobStatus.isActive] at hka
      · rw [Bool.not_eq_true] at hk
        simpa [hk] using hka
  | jobRetry _ jobId error backoff now heq =>
    unfold update_job_retry at heq
    by_cases hn : noDupActive (retryJobs s.jobs jobId error backoff now) = true
    · simp only [hn, eq_self_iff_true, if_true] at heq
      cases heq
      exact fun fid => (noDupActive_iff _).mp hn fid
    · rw [Bool.not_eq_true] at hn
      simp only [hn, Bool.false_eq_true, if_false] at heq
      cases heq
  | jobFailed jobId error =>
    intro fid
    simp only [update_job_failed]
    refine Nat.le_trans (countActive_map_le _ _ _ ?_ ?_) (h fid)
    · intro k
      by_cases hk : (k.id == jobId) = true
      · simp [hk]
      · rw [Bool.not_eq_true] at hk
        simp [hk]
    · intro k hka
      by_cases hk : (k.id == jobId) = true
      · simp [hk, JobStatus.isActive] at hka
      · rw [Bool.not_eq_true] at hk
        simpa [hk] using hka
  | recover staleMinutes now =>
    intro fid
    simp only [recover_stale_jobs]
    refine Nat.le_trans (countActive_map_le _ _ _ ?_ ?_) (h fid)
    · intro k
      by_cases hk : staleCond staleMinutes now k = true
      · simp [hk]
      · rw [Bool.not_eq_true] at hk
        simp [hk]
    · intro k hka
      by_cases hk : staleCond staleMinutes now k = true
      · have : k.status = JobStatus.running := by
          have := band_left hk
          simpa using this
        simp [this, JobStatus.isActive]
      · rw [Bool.not_eq_true] at hk
        simpa [hk] using hka
  | fileUpsert fuid handle size mime name =>
    have hj : (upsert_file s fuid handle size mime name).2.jobs = s.jobs := by
      unfold upsert_file
      split <;> rfl
    intro fid
    rw [hj]
    exact h fid
  | fileLink messageId fileId a b c cap => exact h
  | fileDownloaded fileId p size sha => exact h
  | fileFailed fileId => exact h

/-- Every reachable store satisfies the bound. -/
theorem reachable_invariant {s : Store} (h : Reachable s) :
    ∀ fid, countActive s.jobs fid ≤ 1 := by
  induction h with
  | init => intro fid; simp [Store.empty, countActive]
  | step _ hs ih => exact step_preserves_invariant hs ih

/-- C1: at every reachable store state each file has at most one job in
{QUEUED, RUNNING, RETRY}; insert_job on a file that already has an active job
returns already-exists (none) and changes nothing; and every job-mutating
step from a reachable state preserves the bound. -/
theorem one_active_job_per_file (s : Store) (h : Reachable s) :
    (∀ fid, countActive s.jobs fid ≤ 1)
    ∧ (∀ fileId messageId now, hasActiveJobFor s.jobs fileId = true →
        (insert_job s fileId messageId now).1 = none
        ∧ (insert_job s fileId messageId now).2 = s)
    ∧ (∀ s', Step s s' → ∀ fid, countActive s'.jobs fid ≤ 1) := by
  refine ⟨reachable_invariant h, ?_, ?_⟩
  · intro fileId messageId now hg
    constructor <;> simp [insert_job, hg]
  · intro s' hs
    exact step_preserves_invariant hs (reachable_invariant h)

/-- C1 witness: the store reached by inserting one job from the fresh store
has at most one active job for file 1. -/
theorem one_active_job_witness : countActive c1Store.jobs 1 ≤ 1 :=
  (one_active_job_per_file c1Store
    (Reachable.step Reachable.init (Step.insertJob Store.empty 1 1 0))).1 1

/-! Selection lemmas for `pick_and_lock_job`. -/

theorem pickOldest_none_iff (now : Nat) (js : List Job) :
    pickOldest now js = none ↔ ∀ j ∈ js, eligible now j = false := by
  induction js with
  | nil => simp [pickOldest]
  | cons a rest ih =>
    by_cases ha : eligible now a = true
    · constructor
      · intro hnone
        exfalso
        cases hr : pickOldest now rest with
        | none =>
          simp only [pickOldest, ha, if_true, hr] at hnone
          cases hnone
        | some b =>
          simp only [pickOldest, ha, if_true, hr] at hnone
          by_cases hc : b.createdAt < a.createdAt
          · rw [if_pos hc] at hnone; cases hnone
          · rw [if_neg hc] at hnone; cases hnone
      · intro hall
        have := hall a (List.mem_cons_self a rest)
        rw [this] at ha
        cases ha
    · rw [Bool.not_eq_true] at ha
      simp only [pickOldest, ha, Bool.false_eq_true, if_false, ih]
      constructor
      · intro hall j hj
        rcases List.mem_cons.mp hj with rfl | hj'
        · exact ha
        · exact hall j hj'
      · intro hall j hj
        exact hall j (List.mem_cons_of_mem a hj)

theorem pickOldest_mem {now : Nat} {js : List Job} {j : Job}
    (h : pickOldest now js = some j) : j ∈ js ∧ eligible now j = true := by
  induction js with
  | nil => cases h
  | cons a rest ih =>
    by_cases ha : eligible now a = true
    · cases hr : pickOldest now rest with
      | none =>
        simp only [pickOldest, ha, if_true, hr] at h
        replace h := Option.some.inj h
        subst h
        exact ⟨List.mem_cons_self _ _, ha⟩
      | some b =>
        simp only [pickOldest, ha, if_true, hr] at h
        by_cases hc : b.createdAt < a.createdAt
        · rw [if_pos hc] at h
          replace h := Option.some.inj h
          subst h
          obtain ⟨hm, he⟩ := ih hr
          exact ⟨List.mem_cons_of_mem a hm, he⟩
        · rw [if_neg hc] at h
          replace h := Option.some.inj h
          subst h
          exact ⟨List.mem_cons_self _ _, ha⟩
    · rw [Bool.not_eq_true] at ha
      simp only [pickOldest, ha, Bool.false_eq_true, if_false] at h
      obtain ⟨hm, he⟩ := ih h
      exact ⟨List.mem_cons_of_mem a hm, he⟩

theorem pickOldest_min {now : Nat} {js : List Job} :
    ∀ {j : Job}, pickOldest now js = some j →
    ∀ k ∈ js, eligible now k = true → j.createdAt ≤ k.createdAt := by
  induction js with
  | nil => intro j h; cases h
  | cons a rest ih =>
    intro j h k hk hke
    by_cases ha : eligible now a = true
    · cases hr : pickOldest now rest with
      | none =>
        simp only [pickOldest, ha, if_true, hr] at h
        replace h := Option.some.inj h
        subst h
        rcases List.mem_cons.mp hk with rfl | hk'
        · exact Nat.le_refl _
        · exact absurd hke (by simp [(pickOldest_none_iff now rest).mp hr k hk'])
      | some b =>
        simp only [pickOldest, ha, if_true, hr] at h
        by_cases hc : b.createdAt < a.createdAt
        · rw [if_pos hc] at h
          replace h := Option.some.inj h
          subst h
          rcases List.mem_cons.mp hk with rfl | hk'
          · exact Nat.le_of_lt hc
          · exact ih hr k hk' hke
        · rw [if_neg hc] at h
          replace h := Option.some.inj h
          subst h
          rcases List.mem_cons.mp hk with rfl | hk'
          · exact Nat.le_refl _
          · exact Nat.le_trans (Nat.le_of_not_lt hc) (ih hr k hk' hke)
    · rw [Bool.not_eq_true] at ha
      simp only [pickOldest, ha, Bool.false_eq_true, if_false] at h
      rcases List.mem_cons.mp hk with rfl | hk'
      · rw [hke] at ha; cases ha
      · exact ih h k hk' hke

theorem eq_of_mem_pairwise_id {l : List Job}
    (h : l.Pairwise fun a b => a.id ≠ b.id) {a b : Job}
    (ha : a ∈ l) (hb : b ∈ l) (hid : a.id = b.id) : a = b := by
  induction l with
  | nil => cases ha
  | cons x xs ih =>
    rw [List.pairwise_cons] at h
    rcases List.mem_cons.mp ha with rfl | ha'
    · rcases List.mem_cons.mp hb with rfl | hb'
      · rfl
      · exact absurd hid (h.1 b hb')
    · rcases List.mem_cons.mp hb with rfl | hb'
      · exact absurd hid.symm (h.1 a ha')
      · exact ih h.2 ha' hb'

/-- Any row a successful claim returns is the projection of an eligible job
of the pre-state. -/
theorem pick_and_lock_returned {s : Store} {w : String} {now : Nat}
    {r : ClaimRow} (h : (pick_and_lock_job s w now).1 = some r) :
    ∃ j ∈ s.jobs, eligible now j = true ∧
      r = { id := j.id, fileId := j.fileId, messageId := j.messageId,
            attempts := j.attempts } := by
  cases hp : pickOldest now s.jobs with
  | none => simp [pick_and_lock_job, hp] at h
  | some j =>
    simp only [pick_and_lock_job, hp] at h
    replace h := Option.some.inj h
    exact ⟨j, (pickOldest_mem hp).1, (pickOldest_mem hp).2, h.symm⟩

/-- The eligible statuses are exactly QUEUED and RETRY, as a Bool fact about
the claimed row update guard. -/
theorem eligible_guard {now : Nat} {j : Job} (h : eligible now j = true) :
    (j.status == JobStatus.queued || j.status == JobStatus.retry) = true :=
  band_left h

/-- C2: claim_job returns none exactly when no QUEUED/RETRY job with
next-eligible-time at or before now exists; otherwise it returns an
oldest-created eligible job with its pre-update fields, transitions exactly
that job to RUNNING with attempts incremented and lock holder/time recorded,
leaves every other job untouched, and a subsequent claim on the resulting
store can never return the same job again. -/
theorem claim_job_spec (s : Store) (workerId : String) (now : Nat)
    (hids : s.jobs.Pairwise fun a b => a.id ≠ b.id) :
    ((pick_and_lock_job s workerId now).1 = none ↔
      ∀ j ∈ s.jobs, eligible now j = false)
    ∧ ∀ r, (pick_and_lock_job s workerId now).1 = some r →
        ∃ j ∈ s.jobs, eligible now j = true
          ∧ r = { id := j.id, fileId := j.fileId, messageId := j.messageId,
                  attempts := j.attempts }
          ∧ (∀ k ∈ s.jobs, eligible now k = true →
              j.createdAt ≤ k.createdAt)
          ∧ ({ j with
                status := JobStatus.running
                lockedBy := some workerId
                lockedAt := some now
                attempts := j.attempts + 1 } : Job) ∈
              (pick_and_lock_job s workerId now).2.jobs
          ∧ (∀ k ∈ s.jobs, k.id ≠ j.id →
              k ∈ (pick_and_lock_job s workerId now).2.jobs)
          ∧ (pick_and_lock_job s workerId now).2.jobs.length = s.jobs.length
          ∧ (∀ workerId2 now2 r2,
              (pick_and_lock_job (pick_and_lock_job s workerId now).2
                workerId2 now2).1 = some r2 → r2.id ≠ r.id) := by
  cases hp : pickOldest now s.jobs with
  | none =>
    constructor
    · have hall := (pickOldest_none_iff now s.jobs).mp hp
      constructor
      · intro _
        exact hall
      · intro _
        simp [pick_and_lock_job, hp]
    · intro r hr
      simp only [pick_and_lock_job, hp] at hr
      cases hr
  | some j =>
    obtain ⟨hjm, hje⟩ := pickOldest_mem hp
    constructor
    · simp only [pick_and_lock_job, hp]
      constructor
      · intro hfalse; cases hfalse
      · intro hall
        rw [hall j hjm] at hje
        cases hje
    · intro r hr
      simp only [pick_and_lock_job, hp] at hr
      cases hr
      refine ⟨j, hjm, hje, rfl, pickOldest_min hp, ?_, ?_, ?_, ?_⟩
      · have hmem := List.mem_map_of_mem
          (fun k => if k.id == j.id && (k.status == JobStatus.queued
              || k.status == JobStatus.retry) then
            ({ k with
                status := JobStatus.running
                lockedBy := some workerId
                lockedAt := some now
                attempts := k.attempts + 1 } : Job)
          else k) hjm
        have hguard : (j.id == j.id && (j.status == JobStatus.queued
            || j.status == JobStatus.retry)) = true := by
          simp [eligible_guard hje]
        simp only [hguard, if_true] at hmem
        simpa [pick_and_lock_job, hp] using hmem
      · intro k hk hkid
        have hmem := List.mem_map_of_mem
          (fun k => if k.id == j.id && (k.status == JobStatus.queued
              || k.status == JobStatus.retry) then
            ({ k with
                status := JobStatus.running
                lockedBy := some workerId
                lockedAt := some now
                attempts := k.attempts + 1 } : Job)
          else k) hk
        have hguard : (k.id == j.id && (k.status == JobStatus.queued
            || k.status == JobStatus.retry)) = false := by
          have : (k.id == j.id) = false := by simpa using hkid
          simp [this]
        simp only [hguard, Bool.false_eq_true, if_false] at hmem
        simpa [pick_and_lock_job, hp] using hmem
      · simp [pick_and_lock_job, hp]
      · intro workerId2 now2 r2 hr2
        intro hid2
        obtain ⟨j2, hm2, he2, hr2eq⟩ := pick_and_lock_returned hr2
        have hmap : (pick_and_lock_job s workerId now).2.jobs =
            s.jobs.map (fun k => if k.id == j.id
                && (k.status == JobStatus.queued
                  || k.status == JobStatus.retry) then
              ({ k with
                  status := JobStatus.running
                  lockedBy := some workerId
                  lockedAt := some now
                  attempts := k.attempts + 1 } : Job)
            else k) := by
          simp [pick_and_lock_job, hp]
        rw [hmap] at hm2
        obtain ⟨k, hk, hfk⟩ := List.mem_map.mp hm2
        by_cases hguard : (k.id == j.id && (k.status == JobStatus.queued
            || k.status == JobStatus.retry)) = true
        · rw [if_pos hguard] at hfk
          have hrun : j2.status = JobStatus.running := by
            rw [← hfk]
          rw [eligible, hrun] at he2
          cases (band_left he2)
        · rw [Bool.not_eq_true] at hguard
          rw [hguard] at hfk
          simp only [Bool.false_eq_true, if_false] at hfk
          subst hfk
          have hkj : k.id = j.id := by
            rw [hr2eq] at hid2
            exact hid2
          have hkeq : k = j := eq_of_mem_pairwise_id hids hk hjm hkj
          rw [hkeq] at hguard
          have hguardj : (j.id == j.id && (j.status == JobStatus.queued
              || j.status == JobStatus.retry)) = true := by
            simp [eligible_guard hje]
          rw [hguardj] at hguard
          cases hguard

/-- C2 witness: the specification of claim_job applied to the concrete
two-job store (both jobs eligible) at time 10. -/
theorem claim_job_witness :
    (pick_and_lock_job c2Store "w1" 10).1 = none ↔
      ∀ j ∈ c2Store.jobs, eligible 10 j = false :=
  (claim_job_spec c2Store "w1" 10 (by decide)).1

/-! The idempotent short-circuit of the worker (C4). -/

theorem update_job_done_idem (s : Store) (i : Nat) :
    update_job_done (update_job_done s i) i = update_job_done s i := by
  simp only [update_job_done, List.map_map]
  have hfun : ((fun k : Job =>
        if k.id == i then ({ k with status := JobStatus.done } : Job) else k) ∘
      (fun k : Job =>
        if k.id == i then ({ k with status := JobStatus.done } : Job) else k)) =
      (fun k : Job =>
        if k.id == i then ({ k with status := JobStatus.done } : Job) else k) := by
    funext k
    by_cases hk : (k.id == i) = true
    · simp [Function.comp, hk]
    · rw [Bool.not_eq_true] at hk
      simp [Function.comp, hk]
  rw [hfun]

/-- C4: on a claimed job whose File is DOWNLOADED with a recorded local path
whose on-disk size equals the declared size, process_job marks the job DONE
and changes nothing else — no download, no filesystem write, no audit or
failure records — and running it again from the resulting world returns the
same world. -/
theorem process_job_short_circuit (w : World) (maxAttempts : Nat)
    (dl : DlOracle) (hashFn : FPath → String) (now : Nat) (job : ClaimRow)
    (f : FileRec) (p : FPath) (n : Nat)
    (hf : get_file_by_id w.store job.fileId = some f)
    (hst : f.status = FileStatus.downloaded)
    (hp : f.localPath = some p)
    (hsize : f.fileSize = some n)
    (hfs : w.fs.sizeAt? p = some n) :
    process_job w maxAttempts dl hashFn now job =
      { w with store := update_job_done w.store job.id }
    ∧ process_job { w with store := update_job_done w.store job.id }
        maxAttempts dl hashFn now job =
      { w with store := update_job_done w.store job.id } := by
  have hverify : verify_file w.fs p f.fileSize = true := by
    simp [verify_file, hsize, hfs]
  have htry : process_job_try w dl hashFn job =
      .ok { w with store := update_job_done w.store job.id } := by
    simp [process_job_try, hf, hst, hp, hverify]
  have hf2 : get_file_by_id (update_job_done w.store job.id) job.fileId
      = some f := hf
  have htry2 : process_job_try { w with store := update_job_done w.store job.id }
      dl hashFn job =
      .ok { w with store := update_job_done (update_job_done w.store job.id) job.id } := by
    simp [process_job_try, hf2, hst, hp, hverify]
  constructor
  · simp [process_job, htry]
  · simp [process_job, htry2, update_job_done_idem]

/-- C4 witness: the short-circuit theorem applied to the concrete world whose
file 1 is DOWNLOADED at the recorded path with matching size 7. -/
theorem process_job_short_circuit_witness :
    process_job c4World 8 (fun _ => Except.error "down") (fun _ => "sha") 0
        c4Row =
      { c4World with store := update_job_done c4World.store c4Row.id } :=
  (process_job_short_circuit c4World 8 (fun _ => Except.error "down")
    (fun _ => "sha") 0 c4Row c4File c4Path 7 rfl rfl rfl rfl rfl).1

/-- C8: evaluating the worker's terminal failure path at the failing input (a
claimed job whose returned attempts equal the configured maximum of 8, with
every download attempt failing) marks the job FAILED and the File FAILED and
appends a FAILED audit block — but persists no FailureRecord, because
database.py has no failure-record table or insert (bot.py even calls the
missing db.insert_download_failure), contradicting the claim's FailureRecord
clause. -/
theorem process_job_terminal_no_failure_record :
    ((process_job c8World 8 c10Dl (fun _ => "sha") 0 c8Row).store.jobs.map
        fun j => j.status) = [JobStatus.failed]
    ∧ ((process_job c8World 8 c10Dl (fun _ => "sha") 0 c8Row).store.files.map
        fun f => f.status) = [FileStatus.failed]
    ∧ (process_job c8World 8 c10Dl (fun _ => "sha") 0 c8Row).notes =
        [failedNote 1 1 "u8" c10ErrMsg]
    ∧ (process_job c8World 8 c10Dl (fun _ => "sha") 0 c8Row).failureRecords
        = [] :=
  ⟨rfl, rfl, rfl, rfl⟩

/-! The ingestion dispatcher (C7). -/

/-- C7 counterexample: for a 5 MB attachment (below the 20 MB threshold of
the spec scenario) the dispatcher still creates a QUEUED job row, and the
File stays NEW — nothing is downloaded synchronously during ingestion. -/
theorem handle_attachment_always_queues :
    ((handle_attachment Store.empty { entries := [] } 1 none none c7Att
        0).1.jobs.map fun j => (j.fileId, j.status)) = [(1, JobStatus.queued)]
    ∧ ((handle_attachment Store.empty { entries := [] } 1 none none c7Att
        0).1.files.map fun f => f.status) = [FileStatus.new]
    ∧ (handle_attachment Store.empty { entries := [] } 1 none none c7Att 0).2
        = AttOutcome.queuedNew 1 :=
  ⟨rfl, rfl, rfl⟩

theorem insert_job_files (s : Store) (fid mid now : Nat) :
    (insert_job s fid mid now).2.files = s.files := by
  unfold insert_job
  split <;> rfl

theorem hasActive_insert_some {s : Store} {fid mid now jid : Nat}
    (h : (insert_job s fid mid now).1 = some jid) :
    hasActiveJobFor (insert_job s fid mid now).2.jobs fid = true := by
  by_cases hg : hasActiveJobFor s.jobs fid = true
  · simp [insert_job, hg] at h
  · rw [Bool.not_eq_true] at hg
    simp only [insert_job, hg, Bool.false_eq_true, if_false]
    simp [hasActiveJobFor, JobStatus.isActive]

theorem hasActive_insert_none {s : Store} {fid mid now : Nat}
    (h : (insert_job s fid mid now).1 = none) :
    hasActiveJobFor (insert_job s fid mid now).2.jobs fid = true := by
  by_cases hg : hasActiveJobFor s.jobs fid = true
  · simpa [insert_job, hg] using hg
  · rw [Bool.not_eq_true] at hg
    simp [insert_job, hg] at h

theorem upsert_file_status_preserved (s : Store) (a b : String)
    (c : Option Nat) (d e : Option String) :
    ∀ f' ∈ (upsert_file s a b c d e).2.files,
      f'.status = FileStatus.downloaded →
      ∃ f ∈ s.files, f.id = f'.id ∧ f.status = FileStatus.downloaded := by
  intro f' hf' hst
  cases hfind : s.files.find? (fun g => g.fileUniqueId == a) with
  | some f =>
    have hfiles : (upsert_file s a b c d e).2.files =
        s.files.map (fun g => if g.id == f.id then
          ({ f with
             lastSeenFileId := some b
             fileSize := coalesce c f.fileSize
             mimeType := coalesce d f.mimeType
             originalName := coalesce e f.originalName } : FileRec) else g) := by
      simp [upsert_file, hfind]
    rw [hfiles] at hf'
    obtain ⟨g, hg, hgf⟩ := List.mem_map.mp hf'
    by_cases hid : (g.id == f.id) = true
    · simp only [hid, if_true] at hgf
      have hidf : f.id = f'.id := by rw [← hgf]
      have hstf : f.status = FileStatus.downloaded := by
        rw [← hst, ← hgf]
      exact ⟨f, List.mem_of_find?_eq_some hfind, hidf, hstf⟩
    · rw [Bool.not_eq_true] at hid
      simp only [hid, Bool.false_eq_true, if_false] at hgf
      subst hgf
      exact ⟨g, hg, rfl, hst⟩
  | none =>
    have hfiles : (upsert_file s a b c d e).2.files =
        s.files ++ [({ id := s.nextFileId
                       fileUniqueId := a
                       lastSeenFileId := some b
                       fileSize := c
                       mimeType := d
                       originalName := e
                       localPath := none
                       localSize := none
                       sha256 := none
                       status := FileStatus.new } : FileRec)] := by
      simp [upsert_file, hfind]
    rw [hfiles] at hf'
    rcases List.mem_append.mp hf' with hmem | hmem
    · exact ⟨f', hmem, rfl, hst⟩
    · rcases List.mem_singleton.mp hmem with rfl
      cases hst

/-- C7 amended: the ingestion dispatcher never downloads during ingestion and
ignores the declared size entirely: unless the attachment is skipped as an
already-downloaded-and-verified duplicate, the per-attachment step always
leaves an active job for the file (newly inserted or pre-existing), and it
never marks any File DOWNLOADED — a file is DOWNLOADED after the step only if
it already was before. -/
theorem handle_attachment_spec (s : Store) (fs : FS) (messageId : Nat)
    (sourceId : Option Nat) (caption : Option String) (att : AttachmentInfo)
    (now : Nat) :
    (∀ jid,
      (handle_attachment s fs messageId sourceId caption att now).2 =
          AttOutcome.queuedNew jid →
      hasActiveJobFor
        (handle_attachment s fs messageId sourceId caption att now).1.jobs
        (upsert_file s att.fileUniqueId att.fileId att.fileSize att.mimeType
          att.originalName).1 = true)
    ∧ ((handle_attachment s fs messageId sourceId caption att now).2 =
          AttOutcome.queuedExisting →
      hasActiveJobFor
        (handle_attachment s fs messageId sourceId caption att now).1.jobs
        (upsert_file s att.fileUniqueId att.fileId att.fileSize att.mimeType
          att.originalName).1 = true)
    ∧ (∀ f' ∈ (handle_attachment s fs messageId sourceId caption att
          now).1.files,
        f'.status = FileStatus.downloaded →
        ∃ f ∈ s.files, f.id = f'.id ∧ f.status = FileStatus.downloaded) := by
  cases hdup : dupCheck
      (insert_message_file
        (upsert_file s att.fileUniqueId att.fileId att.fileSize att.mimeType
          att.originalName).2 messageId
        (upsert_file s att.fileUniqueId att.fileId att.fileSize att.mimeType
          att.originalName).1 att.fileId att.fileUniqueId att.kind caption)
      fs
      (upsert_file s att.fileUniqueId att.fileId att.fileSize att.mimeType
        att.originalName).1 with
  | some p =>
    refine ⟨?_, ?_, ?_⟩
    · intro jid hout
      simp only [handle_attachment, hdup] at hout
      cases hout
    · intro hout
      simp only [handle_attachment, hdup] at hout
      cases hout
    · intro f' hf' hst
      simp only [handle_attachment, hdup] at hf'
      exact upsert_file_status_preserved s att.fileUniqueId att.fileId
        att.fileSize att.mimeType att.originalName f' hf' hst
  | none =>
    cases hins : (insert_job
        (insert_message_file
          (upsert_file s att.fileUniqueId att.fileId att.fileSize att.mimeType
            att.originalName).2 messageId
          (upsert_file s att.fileUniqueId att.fileId att.fileSize
            att.mimeType att.originalName).1 att.fileId att.fileUniqueId
          att.kind caption)
        (upsert_file s att.fileUniqueId att.fileId att.fileSize att.mimeType
          att.originalName).1 messageId now).1 with
    | some jid =>
      refine ⟨?_, ?_, ?_⟩
      · intro jid2 hout
        simp only [handle_attachment, hdup, hins] at hout ⊢
        exact hasActive_insert_some hins
      · intro hout
        simp only [handle_attachment, hdup, hins] at hout
        cases hout
      · intro f' hf' hst
        simp only [handle_attachment, hdup, hins, insert_job_files] at hf'
        exact upsert_file_status_preserved s att.fileUniqueId att.fileId
          att.fileSize att.mimeType att.originalName f' hf' hst
    | none =>
      refine ⟨?_, ?_, ?_⟩
      · intro jid2 hout
        simp only [handle_attachment, hdup, hins] at hout
        cases hout
      · intro hout
        simp only [handle_attachment, hdup, hins] at hout ⊢
        exact hasActive_insert_none hins
      · intro f' hf' hst
        simp only [handle_attachment, hdup, hins, insert_job_files] at hf'
        exact upsert_file_status_preserved s att.fileUniqueId att.fileId
          att.fileSize att.mimeType att.originalName f' hf' hst

/-- C7 amended witness: for the fresh store and the 5 MB attachment, the
dispatcher step leaves an active job for the upserted file (id 1). -/
theorem handle_attachment_spec_witness :
    hasActiveJobFor
      (handle_attachment Store.empty { entries := [] } 1 none none c7Att
        0).1.jobs
      (upsert_file Store.empty c7Att.fileUniqueId c7Att.fileId c7Att.fileSize
        c7Att.mimeType c7Att.originalName).1 = true :=
  (handle_attachment_spec Store.empty { entries := [] } 1 none none c7Att
    0).1 1 rfl

/-! The pre-increment attempts contract and the persistent-failure scenario
(C10). -/

theorem claim_preincrement {s : Store} {w : String} {now : Nat} {r : ClaimRow}
    (h : (pick_and_lock_job s w now).1 = some r) :
    ∃ j ∈ s.jobs, r.attempts = j.attempts ∧
      ({ j with
          status := JobStatus.running
          lockedBy := some w
          lockedAt := some now
          attempts := j.attempts + 1 } : Job) ∈
        (pick_and_lock_job s w now).2.jobs := by
  cases hp : pickOldest now s.jobs with
  | none => simp [pick_and_lock_job, hp] at h
  | some j =>
    simp only [pick_and_lock_job, hp] at h
    replace h := Option.some.inj h
    subst h
    obtain ⟨hjm, hje⟩ := pickOldest_mem hp
    refine ⟨j, hjm, rfl, ?_⟩
    have hmem := List.mem_map_of_mem
      (fun k => if k.id == j.id && (k.status == JobStatus.queued
          || k.status == JobStatus.retry) then
        ({ k with
            status := JobStatus.running
            lockedBy := some w
            lockedAt := some now
            attempts := k.attempts + 1 } : Job)
      else k) hjm
    have hguard : (j.id == j.id && (j.status == JobStatus.queued
        || j.status == JobStatus.retry)) = true := by
      simp [eligible_guard hje]
    simp only [hguard, if_true] at hmem
    simpa [pick_and_lock_job, hp] using hmem

theorem process_err_decision
    (w : World) (maxA : Nat) (dl : DlOracle) (hashFn : FPath → String)
    (now : Nat) (job : ClaimRow) (msg : String) (w1 : World) (k : Job)
    (htry : process_job_try w dl hashFn job = .err msg w1)
    (hk : k ∈ w1.store.jobs) (hkid : (k.id == job.id) = true) :
    (maxA ≤ job.attempts →
      ({ k with status := JobStatus.failed, lastError := some msg } : Job) ∈
        (process_job w maxA dl hashFn now job).store.jobs)
    ∧ (∀ st, ¬ maxA ≤ job.attempts →
        update_job_retry w1.store job.id msg (calculate_backoff job.attempts)
          now = some st →
        ({ k with
            status := JobStatus.retry
            lastError := some msg
            availableAt := now + calculate_backoff job.attempts } : Job) ∈
          (process_job w maxA dl hashFn now job).store.jobs) := by
  constructor
  · intro hle
    simp only [process_job, htry]
    rw [if_pos hle]
    have hmem := List.mem_map_of_mem
      (fun j => if j.id == job.id then
        ({ j with status := JobStatus.failed, lastError := some msg } : Job)
      else j) hk
    simp only [hkid, if_true] at hmem
    simpa [update_file_failed, update_job_failed] using hmem
  · intro st hlt hupd
    simp only [process_job, htry]
    rw [if_neg hlt]
    simp only [hupd]
    unfold update_job_retry at hupd
    by_cases hn : noDupActive (retryJobs w1.store.jobs job.id msg
        (calculate_backoff job.attempts) now) = true
    · simp only [hn, eq_self_iff_true, if_true] at hupd
      replace hupd := Option.some.inj hupd
      have hmem := List.mem_map_of_mem
        (fun j => if j.id == job.id then
          ({ j with
              status := JobStatus.retry
              lastError := some msg
              availableAt := now + calculate_backoff job.attempts } : Job)
        else j) hk
      simp only [hkid, if_true] at hmem
      have hjobs : st.jobs = retryJobs w1.store.jobs job.id msg
          (calculate_backoff job.attempts) now := by
        rw [← hupd]
      rw [hjobs]
      simpa [retryJobs] using hmem
    · rw [Bool.not_eq_true] at hn
      simp only [hn, Bool.false_eq_true, if_false] at hupd
      cases hupd

/-- The world right after the (k+1)-th claim of the scenario job. -/
def c10Claimed (k : Nat) : World :=
  { store := { Store.empty with
      files := [c10File], messages := [c10Msg],
      jobs := [{ id := 1, fileId := 1, messageId := 1,
                 status := JobStatus.running, attempts := k + 1,
                 lastError := (c10Job k).lastError,
                 availableAt := (c10Job k).availableAt, lockedBy := some "w",
                 lockedAt := some (T k), createdAt := 0 }],
      nextJobId := 2, nextFileId := 2 },
    fs := { entries := [] }, notes := [], failureRecords := [], writes := [] }

theorem c10_eligible (k : Nat) : eligible (T k) (c10Job k) = true := by
  cases k with
  | zero => rfl
  | succ j =>
    have hb : calculate_backoff j ≤ 21600 := Nat.min_le_right _ _
    have hle : T j + calculate_backoff j ≤ T (j + 1) := by
      simp only [T]
      omega
    simp [eligible, c10Job, hle]

theorem c10_pick (k : Nat) :
    pick_and_lock_job (c10World k).store "w" (T k) =
      (some { id := 1, fileId := 1, messageId := 1, attempts := k },
       (c10Claimed k).store) := by
  have hjobs : (c10World k).store.jobs = [c10Job k] := rfl
  have hpick : pickOldest (T k) [c10Job k] = some (c10Job k) := by
    simp [pickOldest, c10_eligible k]
  simp only [pick_and_lock_job, hjobs, hpick]
  cases k with
  | zero => simp [c10Job, c10Claimed, c10World]
  | succ j => simp [c10Job, c10Claimed, c10World]

theorem c10_try (k : Nat) (hashFn : FPath → String) :
    process_job_try (c10Claimed k) c10Dl hashFn
        { id := 1, fileId := 1, messageId := 1, attempts := k } =
      .err c10ErrMsg (c10Claimed k) := by
  simp [process_job_try, get_file_by_id, get_message_by_id, c10Claimed,
    c10File, c10Msg, c10Dl]

theorem c10_cycle_retry {N k : Nat} (hk : k < N) (hashFn : FPath → String) :
    process_job (c10Claimed k) N c10Dl hashFn (T k)
        { id := 1, fileId := 1, messageId := 1, attempts := k } =
      c10World (k + 1) := by
  simp only [process_job, c10_try k hashFn]
  rw [if_neg (by omega : ¬ N ≤ k)]
  have hupd : update_job_retry (c10Claimed k).store 1 c10ErrMsg
      (calculate_backoff k) (T k) = some (c10World (k + 1)).store := by
    simp [update_job_retry, retryJobs, noDupActive, hasActiveJobFor,
      c10Claimed, c10World, c10Job, JobStatus.isActive]
  simp only [hupd]
  simp [c10Claimed, c10World]

theorem c10_cycle_final (N : Nat) (hashFn : FPath → String) :
    process_job (c10Claimed N) N c10Dl hashFn (T N)
        { id := 1, fileId := 1, messageId := 1, attempts := N } =
      c10Final N := by
  simp only [process_job, c10_try N hashFn]
  rw [if_pos (Nat.le_refl N)]
  simp [update_job_failed, update_file_failed, get_message_by_id,
    get_file_by_id, c10Claimed, c10File, c10Msg, c10Final, failedNote]

theorem c10_cycle_eq_retry {N k : Nat} (hk : k < N) :
    c10Cycle N (c10World k) k = c10World (k + 1) := by
  simp only [c10Cycle, c10_pick k]
  have : ({ c10World k with store := (c10Claimed k).store } : World) =
      c10Claimed k := by
    simp [c10World, c10Claimed]
  rw [this]
  exact c10_cycle_retry hk _

theorem c10_cycle_eq_final (N : Nat) :
    c10Cycle N (c10World N) N = c10Final N := by
  simp only [c10Cycle, c10_pick N]
  have : ({ c10World N with store := (c10Claimed N).store } : World) =
      c10Claimed N := by
    simp [c10World, c10Claimed]
  rw [this]
  exact c10_cycle_final N _

theorem c10_run_world (N : Nat) : ∀ k, k ≤ N → c10Run N k = c10World k := by
  intro k
  induction k with
  | zero => intro _; rfl
  | succ j ih =>
    intro hle
    have hj : j ≤ N := Nat.le_of_succ_le hle
    have hjN : j < N := hle
    simp only [c10Run, ih hj]
    exact c10_cycle_eq_retry hjN

theorem c10_run_final (N : Nat) : c10Run N (N + 1) = c10Final N := by
  simp only [c10Run, c10_run_world N N (Nat.le_refl N)]
  exact c10_cycle_eq_final N

/-- C10: the row a successful claim returns carries the pre-increment
attempts counter while the stored row is incremented; the worker's
retry-versus-terminal decision compares that returned (pre-increment) value
against the maximum and feeds it to calculate_backoff; consequently a
persistently failing job under maximum N is executed N+1 times, the (k+1)-th
execution seeing returned attempts k and requeueing with backoff computed
from k, before the run ends FAILED. -/
theorem attempts_preincrement_spec :
    (∀ (s : Store) (w : String) (now : Nat) (r : ClaimRow),
      (pick_and_lock_job s w now).1 = some r →
      ∃ j ∈ s.jobs, r.attempts = j.attempts ∧
        ({ j with
            status := JobStatus.running
            lockedBy := some w
            lockedAt := some now
            attempts := j.attempts + 1 } : Job) ∈
          (pick_and_lock_job s w now).2.jobs)
    ∧ (∀ (w : World) (maxA : Nat) (dl : DlOracle) (hashFn : FPath → String)
        (now : Nat) (job : ClaimRow) (msg : String) (w1 : World) (k : Job),
      process_job_try w dl hashFn job = .err msg w1 →
      k ∈ w1.store.jobs → (k.id == job.id) = true →
      (maxA ≤ job.attempts →
        ({ k with status := JobStatus.failed, lastError := some msg } : Job) ∈
          (process_job w maxA dl hashFn now job).store.jobs)
      ∧ (∀ st, ¬ maxA ≤ job.attempts →
          update_job_retry w1.store job.id msg
            (calculate_backoff job.attempts) now = some st →
          ({ k with
              status := JobStatus.retry
              lastError := some msg
              availableAt := now + calculate_backoff job.attempts } : Job) ∈
            (process_job w maxA dl hashFn now job).store.jobs))
    ∧ (∀ k : Nat, (pick_and_lock_job (c10World k).store "w" (T k)).1 =
        some { id := 1, fileId := 1, messageId := 1, attempts := k })
    ∧ (∀ N k : Nat, k < N → c10Cycle N (c10World k) k = c10World (k + 1))
    ∧ (∀ N : Nat, c10Cycle N (c10World N) N = c10Final N)
    ∧ (∀ N k : Nat, k ≤ N → c10Run N k = c10World k)
    ∧ (∀ N : Nat, c10Run N (N + 1) = c10Final N) :=
  ⟨fun _ _ _ _ h => claim_preincrement h,
   fun w maxA dl hashFn now job msg w1 k htry hk hkid =>
     process_err_decision w maxA dl hashFn now job msg w1 k htry hk hkid,
   fun k => by rw [c10_pick k],
   fun _ _ hk => c10_cycle_eq_retry hk,
   c10_cycle_eq_final,
   c10_run_world,
   c10_run_final⟩

/-- C10 witness: with maximum 2, starting from the fresh scenario job, three
executions happen and the run ends FAILED; instantiated through the spec
theorem with its hypotheses discharged at k = 0 < 2. -/
theorem attempts_preincrement_witness :
    c10Cycle 2 (c10World 0) 0 = c10World 1 :=
  attempts_preincrement_spec.2.2.2.1 2 0 (by decide)

/-! Character-level facts about `sanitize_filename` output, used for the
locator injectivity analysis (C6). -/

theorem noUU_cons_elim {c d : Char} {l : List Char}
    (h : noUU (c :: d :: l) = true) :
    (c == '_' && d == '_') = false ∧ noUU (d :: l) = true := by
  simp only [noUU, Bool.and_eq_true, Bool.not_eq_true'] at h
  exact h

theorem noUU_tail (c : Char) (l : List Char) (h : noUU (c :: l) = true) :
    noUU l = true := by
  cases l with
  | nil => rfl
  | cons d t => exact (noUU_cons_elim h).2

theorem noUU_of_append_right : ∀ (a b : List Char),
    noUU (a ++ b) = true → noUU b = true
  | [], _, h => h
  | x :: a, b, h =>
      noUU_of_append_right a b (noUU_tail x (a ++ b) (by simpa using h))

theorem noUU_of_append_left : ∀ (a b : List Char),
    noUU (a ++ b) = true → noUU a = true
  | [], _, _ => rfl
  | [_], _, _ => rfl
  | x :: y :: a, b, h => by
      have h' : noUU (x :: y :: (a ++ b)) = true := by simpa using h
      obtain ⟨h1, h2⟩ := noUU_cons_elim h'
      have h3 := noUU_of_append_left (y :: a) b h2
      simp only [noUU, h1]
      simpa using h3

theorem noUU_append_uu : ∀ (a b : List Char),
    noUU (a ++ '_' :: '_' :: b) = false
  | [], b => by simp [noUU]
  | [x], b => by
      have h := noUU_append_uu ([] : List Char) b
      simp only [List.nil_append] at h
      simp [noUU, h]
  | x :: y :: a, b => by
      have h := noUU_append_uu (y :: a) b
      simp only [List.cons_append] at h ⊢
      simp [noUU, h]

theorem noUU_append_cons : ∀ (a : List Char) (c : Char) (b : List Char),
    noUU a = true → noUU (c :: b) = true → (c == '_') = false →
    noUU (a ++ c :: b) = true
  | [], _, _, _, hb, _ => hb
  | [x], c, b, _, hb, hc => by
      simp only [List.cons_append, List.nil_append, noUU, hc]
      simpa using hb
  | x :: y :: a, c, b, ha, hb, hc => by
      obtain ⟨h1, h2⟩ := noUU_cons_elim ha
      have h3 := noUU_append_cons (y :: a) c b h2 hb hc
      simp only [List.cons_append, noUU, h1]
      simpa using h3

theorem collapse_head : ∀ (l : List Char) (c : Char),
    ∃ t, collapseUnderscores (c :: l) = c :: t
  | [], c => ⟨[], rfl⟩
  | d :: l, c => by
      by_cases h : (c == '_' && d == '_') = true
      · obtain ⟨t, ht⟩ := collapse_head l d
        have hc : c = '_' := by simpa using band_left h
        have hd : d = '_' := by simpa using band_right h
        refine ⟨t, ?_⟩
        simp only [collapseUnderscores, h, if_true]
        rw [ht, hc, hd]
      · rw [Bool.not_eq_true] at h
        exact ⟨collapseUnderscores (d :: l), by
          simp only [collapseUnderscores, h, Bool.false_eq_true, if_false]⟩

theorem noUU_collapse : ∀ l : List Char, noUU (collapseUnderscores l) = true
  | [] => rfl
  | [_] => rfl
  | c :: d :: l => by
      by_cases h : (c == '_' && d == '_') = true
      · simp only [collapseUnderscores, h, if_true]
        exact noUU_collapse (d :: l)
      · rw [Bool.not_eq_true] at h
        simp only [collapseUnderscores, h, Bool.false_eq_true, if_false]
        obtain ⟨t, ht⟩ := collapse_head l d
        rw [ht]
        have hrec := noUU_collapse (d :: l)
        rw [ht] at hrec
        simp [noUU, h, hrec]

theorem dropWhile_head_not (p : Char → Bool) :
    ∀ (l : List Char) (c : Char) (t : List Char),
      l.dropWhile p = c :: t → p c = false
  | [], _, _, h => by simp [List.dropWhile] at h
  | x :: l, c, t, h => by
      by_cases hx : p x = true
      · rw [List.dropWhile_cons, if_pos hx] at h
        exact dropWhile_head_not p l c t h
      · rw [Bool.not_eq_true] at hx
        rw [List.dropWhile_cons, if_neg (by simp [hx])] at h
        obtain ⟨hxc, -⟩ := List.cons.inj h
        rw [← hxc]
        exact hx

theorem stripEnds_decomp (l : List Char) :
    l.dropWhile stripChar =
      stripEnds l ++
        ((l.dropWhile stripChar).reverse.takeWhile stripChar).reverse := by
  have h := List.takeWhile_append_dropWhile stripChar
    (l.dropWhile stripChar).reverse
  calc l.dropWhile stripChar
      = (l.dropWhile stripChar).reverse.reverse := (List.reverse_reverse _).symm
    _ = ((l.dropWhile stripChar).reverse.takeWhile stripChar ++
          (l.dropWhile stripChar).reverse.dropWhile stripChar).reverse := by
        rw [h]
    _ = ((l.dropWhile stripChar).reverse.dropWhile stripChar).reverse ++
          ((l.dropWhile stripChar).reverse.takeWhile stripChar).reverse := by
        rw [List.reverse_append]
    _ = stripEnds l ++
          ((l.dropWhile stripChar).reverse.takeWhile stripChar).reverse := rfl

theorem noUU_stripEnds (l : List Char) (h : noUU l = true) :
    noUU (stripEnds l) = true := by
  have hdw : noUU (l.dropWhile stripChar) = true := by
    refine noUU_of_append_right (l.takeWhile stripChar) _ ?_
    rw [List.takeWhile_append_dropWhile stripChar l]
    exact h
  refine noUU_of_append_left (stripEnds l)
    (((l.dropWhile stripChar).reverse.takeWhile stripChar).reverse) ?_
  rw [← stripEnds_decomp l]
  exact hdw

theorem headNotU_stripEnds (l : List Char) :
    headNotU (stripEnds l) = true := by
  cases hs : stripEnds l with
  | nil => rfl
  | cons c t =>
    have hdec := stripEnds_decomp l
    rw [hs] at hdec
    have hc : stripChar c = false := by
      refine dropWhile_head_not stripChar l c
        (t ++ ((l.dropWhile stripChar).reverse.takeWhile stripChar).reverse) ?_
      simpa using hdec
    have hcu : (c == '_') = false := by
      simp only [stripChar, Bool.or_eq_false_iff] at hc
      exact hc.1
    simp [headNotU, hcu]

theorem rsplitDot_eq : ∀ (l b a : List Char), rsplitDot l = some (b, a) →
    l = b ++ '.' :: a
  | [], _, _, h => by cases h
  | c :: rest, b, a, h => by
      simp only [rsplitDot] at h
      cases hr : rsplitDot rest with
      | some p =>
        rw [hr] at h
        replace h := Option.some.inj h
        have hrec := rsplitDot_eq rest p.1 p.2 hr
        cases h
        simp only [List.cons_append]
        rw [← hrec]
      | none =>
        rw [hr] at h
        by_cases hc : (c == '.') = true
        · simp only [hc, if_true] at h
          replace h := Option.some.inj h
          cases h
          have hcd : c = '.' := by simpa using hc
          rw [hcd]
          rfl
        · rw [Bool.not_eq_true] at hc
          simp only [hc, Bool.false_eq_true, if_false] at h
          cases h

theorem noUU_take (l : List Char) (n : Nat) (h : noUU l = true) :
    noUU (l.take n) = true := by
  refine noUU_of_append_left _ (l.drop n) ?_
  rw [List.take_append_drop n l]
  exact h

theorem headNotU_take (l : List Char) (n : Nat) (h : headNotU l = true) :
    headNotU (l.take n) = true := by
  cases l with
  | nil => simp [headNotU]
  | cons c t =>
    cases n with
    | zero => rfl
    | succ m => simpa [headNotU, List.take] using h

theorem noUU_truncate (maxL : Nat) (l : List Char) (h : noUU l = true) :
    noUU (truncateName maxL l) = true := by
  unfold truncateName
  by_cases hlen : l.length ≤ maxL
  · rw [if_pos hlen]
    exact h
  · rw [if_neg hlen]
    cases hr : rsplitDot l with
    | none =>
      simp only [hr]
      exact noUU_take l maxL h
    | some p =>
      simp only [hr]
      by_cases hext : p.2.length ≤ 10
      · rw [if_pos hext]
        have hsplit := rsplitDot_eq l p.1 p.2 hr
        have h1 : noUU p.1 = true := by
          refine noUU_of_append_left _ ('.' :: p.2) ?_
          rw [← hsplit]
          exact h
        have h2 : noUU ('.' :: p.2) = true := by
          refine noUU_of_append_right p.1 _ ?_
          rw [← hsplit]
          exact h
        exact noUU_append_cons _ '.' _
          (noUU_take p.1 (maxL - p.2.length - 1) h1) h2 (by decide)
      · rw [if_neg hext]
        exact noUU_take l maxL h

theorem headNotU_truncate (maxL : Nat) (l : List Char)
    (h : headNotU l = true) : headNotU (truncateName maxL l) = true := by
  unfold truncateName
  by_cases hlen : l.length ≤ maxL
  · rw [if_pos hlen]
    exact h
  · rw [if_neg hlen]
    cases hr : rsplitDot l with
    | none =>
      simp only [hr]
      exact headNotU_take l maxL h
    | some p =>
      simp only [hr]
      by_cases hext : p.2.length ≤ 10
      · rw [if_pos hext]
        cases ht : p.1.take (maxL - p.2.length - 1) with
        | nil => rfl
        | cons c t =>
          have hsplit := rsplitDot_eq l p.1 p.2 hr
          have hp1 : ∃ r, p.1 = c :: r := by
            cases p1 : p.1 with
            | nil =>
              rw [p1] at ht
              simp at ht
            | cons x r =>
              rw [p1] at ht
              cases hn : maxL - p.2.length - 1 with
              | zero =>
                rw [hn] at ht
                cases ht
              | succ m =>
                rw [hn] at ht
                simp only [List.take] at ht
                obtain ⟨hxc, -⟩ := List.cons.inj ht
                exact ⟨r, by rw [hxc]⟩
          obtain ⟨r, hp1⟩ := hp1
          rw [hp1] at hsplit
          rw [hsplit] at h
          simp only [List.cons_append, headNotU] at h
          simpa [headNotU] using h
      · rw [if_neg hext]
        exact headNotU_take l maxL h

theorem sanitize_noUU (maxL : Nat) (n : List Char) :
    noUU (sanitize_filename maxL n) = true := by
  unfold sanitize_filename
  by_cases hn : n.isEmpty = true
  · rw [if_pos hn]
    rfl
  · rw [if_neg (by simp [hn])]
    exact noUU_truncate maxL _ (noUU_stripEnds _ (noUU_collapse _))

theorem sanitize_headNotU (maxL : Nat) (n : List Char) :
    headNotU (sanitize_filename maxL n) = true := by
  unfold sanitize_filename
  by_cases hn : n.isEmpty = true
  · rw [if_pos hn]
    rfl
  · rw [if_neg (by simp [hn])]
    exact headNotU_truncate maxL _ (headNotU_stripEnds _)

theorem append_uu_inj : ∀ (f1 f2 s1 s2 : List Char),
    noUU s1 = true → noUU s2 = true →
    headNotU s1 = true → headNotU s2 = true →
    f1 ++ '_' :: '_' :: s1 = f2 ++ '_' :: '_' :: s2 → f1 = f2
  | [], f2, s1, s2, h1, h2, g1, g2, heq => by
      cases f2 with
      | nil => rfl
      | cons d f2' =>
        exfalso
        simp only [List.nil_append, List.cons_append] at heq
        obtain ⟨hd, heq2⟩ := List.cons.inj heq
        cases f2' with
        | nil =>
          simp only [List.nil_append] at heq2
          obtain ⟨-, heq3⟩ := List.cons.inj heq2
          rw [heq3] at g1
          simp [headNotU] at g1
        | cons e f2'' =>
          simp only [List.cons_append] at heq2
          obtain ⟨-, heq3⟩ := List.cons.inj heq2
          rw [heq3] at h1
          rw [noUU_append_uu f2'' s2] at h1
          simp at h1
  | c :: f1', f2, s1, s2, h1, h2, g1, g2, heq => by
      cases f2 with
      | nil =>
        exfalso
        simp only [List.cons_append, List.nil_append] at heq
        obtain ⟨hc, heq2⟩ := List.cons.inj heq
        cases f1' with
        | nil =>
          simp only [List.nil_append] at heq2
          obtain ⟨-, heq3⟩ := List.cons.inj heq2
          rw [← heq3] at g2
          simp [headNotU] at g2
        | cons e f1'' =>
          simp only [List.cons_append] at heq2
          obtain ⟨-, heq3⟩ := List.cons.inj heq2
          rw [← heq3] at h2
          rw [noUU_append_uu f1'' s1] at h2
          simp at h2
      | cons d f2' =>
        simp only [List.cons_append] at heq
        obtain ⟨hcd, heq2⟩ := List.cons.inj heq
        rw [hcd, append_uu_inj f1' f2' s1 s2 h1 h2 g1 g2 heq2]

/-- C6 counterexample: two distinct content ids collide — id "x" with a
declared name sanitising to "y.bin" yields the same full path as id "x__y"
with no declared name, under the same source and title. -/
theorem get_archive_path_collision :
    (get_archive_path "channel".toList 5 none "x".toList
        (some "y.bin".toList)).2 =
      (get_archive_path "channel".toList 5 none "x__y".toList none).2
    ∧ ("x".toList : List Char) ≠ "x__y".toList :=
  ⟨rfl, by decide⟩

/-- C6 amended: the locator is deterministic, and it is injective across
distinct content ids under the same source, type and title whenever both
attachments carry nonempty declared names, and whenever both carry none; the
mixed case (one declared name present, one absent) admits collisions. -/
theorem locate_deterministic_injective (st : List Char) (cid : Int)
    (ti : Option (List Char)) (u1 u2 n1 n2 : List Char) (hne : u1 ≠ u2) :
    get_archive_path st cid ti u1 (some n1) =
      get_archive_path st cid ti u1 (some n1)
    ∧ (n1.isEmpty = false → n2.isEmpty = false →
        (get_archive_path st cid ti u1 (some n1)).2 ≠
          (get_archive_path st cid ti u2 (some n2)).2)
    ∧ (get_archive_path st cid ti u1 none).2 ≠
        (get_archive_path st cid ti u2 none).2 := by
  refine ⟨rfl, ?_, ?_⟩
  · intro he1 he2 heq
    simp only [get_archive_path, he1, Bool.false_eq_true, if_false, he2] at heq
    have hfn : u1 ++ '_' :: '_' :: sanitize_filename 64 n1 =
        u2 ++ '_' :: '_' :: sanitize_filename 64 n2 := by
      simpa using heq
    exact hne (append_uu_inj u1 u2 _ _ (sanitize_noUU 64 n1)
      (sanitize_noUU 64 n2) (sanitize_headNotU 64 n1)
      (sanitize_headNotU 64 n2) hfn)
  · intro heq
    have hfn : u1 ++ ".bin".toList = u2 ++ ".bin".toList := by
      simpa [get_archive_path] using heq
    exact hne (List.append_cancel_right hfn)

/-- C6 amended witness: two distinct ids with the same declared name map to
different full paths. -/
theorem locate_injective_witness :
    (get_archive_path "channel".toList 5 none "a".toList
        (some "n".toList)).2 ≠
      (get_archive_path "channel".toList 5 none "b".toList
        (some "n".toList)).2 :=
  (locate_deterministic_injective "channel".toList 5 none "a".toList
    "b".toList "n".toList "n".toList (by decide)).2.1 rfl rfl

end TgArchive